import Mathlib

/-!
Verification development for the NixFleet control plane (`src/app/main.py`).

Part 1 models the signed-session-cookie layer (`sign_session_cookie` /
`unsign_session_cookie`) at the byte level.  Byte strings are `List Nat`
(each element an octet).  The external cryptographic primitive
HMAC-SHA256 is a parameter `mac : List Nat → List Nat → List Nat`
(secret, message ↦ digest); theorems that need its collision freedom take
that as an explicit hypothesis, since it is a property of the external
primitive, not of this code.

Part 2 models the command-queue / host / session state machine, and
Part 3 the SSE broadcaster.
-/

namespace NixFleet

/-- ASCII code of the dot separator used in the `v1.<payload>.<sig>` format. -/
def dotByte : Nat := 46

/-- The `"v1."` prefix of a signed cookie, as bytes. -/
def v1dot : List Nat := [118, 49, 46]

/-- Base64url alphabet (`base64.urlsafe_b64encode`): 6-bit value to ASCII code. -/
def b64Char (i : Nat) : Nat :=
  if i < 26 then 65 + i
  else if i < 52 then 97 + (i - 26)
  else if i < 62 then 48 + (i - 52)
  else if i = 62 then 45
  else 95

/-- Decode one base64 character to its 6-bit value.  Mirrors
`base64.urlsafe_b64decode`, which first translates `-`,`_` to `+`,`/` and then
decodes with the standard alphabet, so all four of `-`,`_`,`+`,`/` are
accepted.  Returns `none` for characters outside the alphabet (Python
discards those before decoding). -/
def b64CharVal (c : Nat) : Option Nat :=
  if 65 ≤ c ∧ c ≤ 90 then some (c - 65)
  else if 97 ≤ c ∧ c ≤ 122 then some (c - 97 + 26)
  else if 48 ≤ c ∧ c ≤ 57 then some (c - 48 + 52)
  else if c = 45 ∨ c = 43 then some 62
  else if c = 95 ∨ c = 47 then some 63
  else none

/-- Byte code of the base64 padding character `=`. -/
def eqByte : Nat := 61

/-- `_b64url_encode`: base64url encoding with padding stripped
(`rstrip("=")`), written directly without the trailing `=`. -/
def b64urlEncode : List Nat → List Nat
  | [] => []
  | [a] => [b64Char (a / 4), b64Char (a % 4 * 16)]
  | [a, b] => [b64Char (a / 4), b64Char (a % 4 * 16 + b / 16), b64Char (b % 16 * 4)]
  | a :: b :: c :: rest =>
      b64Char (a / 4) :: b64Char (a % 4 * 16 + b / 16) ::
      b64Char (b % 16 * 4 + c / 64) :: b64Char (c % 64) :: b64urlEncode rest

/-- Decode a list of base64 character codes, already padded to a multiple of
four and filtered to alphabet characters and `=`.  A `=` in the third slot
must be followed by `=` and end the input (one decoded byte); a `=` in the
fourth slot must end the input (two decoded bytes); `=` elsewhere is an
error.  Python's non-strict decoder ignores the unused low bits of the final
character, which this faithfully reproduces (the low bits are simply never
read). -/
def decodeBlocks : List Nat → Option (List Nat)
  | [] => some []
  | a :: b :: c :: d :: rest =>
      if a = eqByte ∨ b = eqByte then none
      else
        match b64CharVal a, b64CharVal b with
        | some va, some vb =>
            if c = eqByte then
              if d = eqByte ∧ rest = [] then some [va * 4 + vb / 16] else none
            else
              match b64CharVal c with
              | some vc =>
                  if d = eqByte then
                    if rest = [] then some [va * 4 + vb / 16, vb % 16 * 16 + vc / 4]
                    else none
                  else
                    match b64CharVal d with
                    | some vd =>
                        (decodeBlocks rest).map fun tl =>
                          (va * 4 + vb / 16) :: (vb % 16 * 16 + vc / 4) ::
                          (vc % 4 * 64 + vd) :: tl
                    | none => none
              | none => none
        | _, _ => none
  | _ => none

/-- `_b64url_decode`: re-append the padding computed from the input length,
discard characters outside the alphabet (Python's default non-validating
decode), and fail unless the remaining length is a multiple of four. -/
def b64urlDecode (s : List Nat) : Option (List Nat) :=
  let padded := s ++ List.replicate ((4 - s.length % 4) % 4) eqByte
  let kept := padded.filter fun c => (b64CharVal c).isSome || c == eqByte
  if kept.length % 4 = 0 then decodeBlocks kept else none

theorem b64CharVal_b64Char : ∀ i < 64, b64CharVal (b64Char i) = some i := by
  decide

theorem b64Char_ne_eq (i : Nat) : b64Char i ≠ eqByte := by
  unfold b64Char eqByte
  split <;> [omega; split <;> [omega; split <;> [omega; split <;> omega]]]

theorem b64Char_isSome (i : Nat) (h : i < 64) : (b64CharVal (b64Char i)).isSome = true := by
  rw [b64CharVal_b64Char i h]; rfl

theorem b64CharVal_isSome_b64Char (i : Nat) : (b64CharVal (b64Char i)).isSome = true := by
  unfold b64Char b64CharVal
  split
  · rw [if_pos (by omega)]; rfl
  · split
    · rw [if_neg (by omega), if_pos (by omega)]; rfl
    · split
      · rw [if_neg (by omega), if_neg (by omega), if_pos (by omega)]; rfl
      · split
        · rw [if_neg (by omega), if_neg (by omega), if_neg (by omega), if_pos (by omega)]; rfl
        · rw [if_neg (by omega), if_neg (by omega), if_neg (by omega), if_neg (by omega),
              if_pos (by omega)]; rfl

/-- Every character produced by the encoder is in the base64url alphabet. -/
theorem encode_chars_valid : ∀ bs, ∀ c ∈ b64urlEncode bs, (b64CharVal c).isSome = true := by
  intro bs
  induction bs using b64urlEncode.induct with
  | case1 => intro c hc; simp [b64urlEncode] at hc
  | case2 a =>
      intro c hc
      simp only [b64urlEncode, List.mem_cons, List.not_mem_nil, or_false] at hc
      rcases hc with h | h <;> subst h <;> exact b64CharVal_isSome_b64Char _
  | case3 a b =>
      intro c hc
      simp only [b64urlEncode, List.mem_cons, List.not_mem_nil, or_false] at hc
      rcases hc with h | h | h <;> subst h <;> exact b64CharVal_isSome_b64Char _
  | case4 a b c rest ih =>
      intro x hx
      simp only [b64urlEncode, List.mem_cons] at hx
      rcases hx with h | h | h | h | h
      · subst h; exact b64CharVal_isSome_b64Char _
      · subst h; exact b64CharVal_isSome_b64Char _
      · subst h; exact b64CharVal_isSome_b64Char _
      · subst h; exact b64CharVal_isSome_b64Char _
      · exact ih x h

/-- The padding the decoder would re-append for an encoder output, written
by the shape of the input byte string. -/
def padFor : List Nat → List Nat
  | [] => []
  | [_] => [eqByte, eqByte]
  | [_, _] => [eqByte]
  | _ :: _ :: _ :: r => padFor r

theorem replicate_pad_eq_padFor (bs : List Nat) :
    List.replicate ((4 - (b64urlEncode bs).length % 4) % 4) eqByte = padFor bs := by
  induction bs using b64urlEncode.induct with
  | case1 => rfl
  | case2 a => rfl
  | case3 a b => rfl
  | case4 a b c rest ih =>
      simp only [b64urlEncode, padFor, List.length_cons]
      rw [show (b64urlEncode rest).length + 1 + 1 + 1 + 1 = 4 + (b64urlEncode rest).length
          from by omega]
      rw [Nat.add_mod_left]
      exact ih

theorem decodeBlocks_encode (bs : List Nat) (h : ∀ x ∈ bs, x < 256) :
    decodeBlocks (b64urlEncode bs ++ padFor bs) = some bs := by
  induction bs using b64urlEncode.induct with
  | case1 => rfl
  | case2 a =>
      have ha : a < 256 := h a (by simp)
      have h1 : b64CharVal (b64Char (a / 4)) = some (a / 4) :=
        b64CharVal_b64Char _ (by omega)
      have h2 : b64CharVal (b64Char (a % 4 * 16)) = some (a % 4 * 16) :=
        b64CharVal_b64Char _ (by omega)
      have e1 : a / 4 * 4 + a % 4 * 16 / 16 = a := by omega
      show decodeBlocks [b64Char (a / 4), b64Char (a % 4 * 16), eqByte, eqByte] = some [a]
      unfold decodeBlocks
      simp [b64Char_ne_eq, h1, h2, e1]
      all_goals omega
  | case3 a b =>
      have ha : a < 256 := h a (by simp)
      have hb : b < 256 := h b (by simp)
      have h1 : b64CharVal (b64Char (a / 4)) = some (a / 4) :=
        b64CharVal_b64Char _ (by omega)
      have h2 : b64CharVal (b64Char (a % 4 * 16 + b / 16)) = some (a % 4 * 16 + b / 16) :=
        b64CharVal_b64Char _ (by omega)
      have h3 : b64CharVal (b64Char (b % 16 * 4)) = some (b % 16 * 4) :=
        b64CharVal_b64Char _ (by omega)
      have e1 : a / 4 * 4 + (a % 4 * 16 + b / 16) / 16 = a := by omega
      have e2 : (a % 4 * 16 + b / 16) % 16 * 16 + b % 16 * 4 / 4 = b := by omega
      show decodeBlocks
          [b64Char (a / 4), b64Char (a % 4 * 16 + b / 16), b64Char (b % 16 * 4), eqByte]
          = some [a, b]
      unfold decodeBlocks
      simp [b64Char_ne_eq, h1, h2, h3, e1, e2]
      all_goals omega
  | case4 a b c rest ih =>
      have ha : a < 256 := h a (by simp)
      have hb : b < 256 := h b (by simp)
      have hc : c < 256 := h c (by simp)
      have hrest : ∀ x ∈ rest, x < 256 := fun x hx => h x (by simp [hx])
      have h1 : b64CharVal (b64Char (a / 4)) = some (a / 4) :=
        b64CharVal_b64Char _ (by omega)
      have h2 : b64CharVal (b64Char (a % 4 * 16 + b / 16)) = some (a % 4 * 16 + b / 16) :=
        b64CharVal_b64Char _ (by omega)
      have h3 : b64CharVal (b64Char (b % 16 * 4 + c / 64)) = some (b % 16 * 4 + c / 64) :=
        b64CharVal_b64Char _ (by omega)
      have h4 : b64CharVal (b64Char (c % 64)) = some (c % 64) :=
        b64CharVal_b64Char _ (by omega)
      have e1 : a / 4 * 4 + (a % 4 * 16 + b / 16) / 16 = a := by omega
      have e2 : (a % 4 * 16 + b / 16) % 16 * 16 + (b % 16 * 4 + c / 64) / 4 = b := by omega
      have e3 : (b % 16 * 4 + c / 64) % 4 * 64 + c % 64 = c := by omega
      show decodeBlocks
          (b64Char (a / 4) :: b64Char (a % 4 * 16 + b / 16) ::
           b64Char (b % 16 * 4 + c / 64) :: b64Char (c % 64) ::
           (b64urlEncode rest ++ padFor rest)) = some (a :: b :: c :: rest)
      unfold decodeBlocks
      simp [b64Char_ne_eq, h1, h2, h3, h4, e1, e2, e3, ih hrest]

theorem mem_padFor : ∀ bs, ∀ c ∈ padFor bs, c = eqByte := by
  intro bs
  induction bs using padFor.induct with
  | case1 => intro c hc; simp [padFor] at hc
  | case2 a => intro c hc; simp [padFor, eqByte] at hc ⊢; omega
  | case3 a b => intro c hc; simp [padFor, eqByte] at hc ⊢; omega
  | case4 a b c' rest ih => intro c hc; exact ih c hc

theorem padFor_length_mod (bs : List Nat) :
    ((b64urlEncode bs).length + (padFor bs).length) % 4 = 0 := by
  have h := replicate_pad_eq_padFor bs
  have hlen : (padFor bs).length = (4 - (b64urlEncode bs).length % 4) % 4 := by
    rw [← h, List.length_replicate]
  omega

/-- Round trip: decoding an encoder output recovers the original bytes.
This mirrors `_b64url_decode(_b64url_encode(bs)) == bs` for byte strings. -/
theorem b64url_roundtrip (bs : List Nat) (h : ∀ x ∈ bs, x < 256) :
    b64urlDecode (b64urlEncode bs) = some bs := by
  have hkept :
      (b64urlEncode bs ++ padFor bs).filter
        (fun c => (b64CharVal c).isSome || c == eqByte) = b64urlEncode bs ++ padFor bs := by
    rw [List.filter_eq_self]
    intro a hmem
    rcases List.mem_append.mp hmem with hl | hr
    · simp [encode_chars_valid bs a hl]
    · simp [mem_padFor bs a hr]
  simp only [b64urlDecode]
  rw [replicate_pad_eq_padFor, hkept, List.length_append, if_pos (padFor_length_mod bs)]
  exact decodeBlocks_encode bs h

/-! ### Canonical JSON payload

`sign_session_cookie` serializes `{"v": 1, "t": token, "exp": exp}` with
`json.dumps(..., separators=(",", ":"), sort_keys=True)`, which yields the
canonical byte string `{"exp":<digits>,"t":"<token>","v":1}` (keys sorted).
Session tokens come from `secrets.token_urlsafe`, so they contain only
URL-safe characters and need no JSON escaping; `parsePayload` models
`json.loads` on exactly these canonical payloads. -/

/-- Decimal digit bytes, fuel-based so that it reduces by computation; the
fuel is always sufficient since a number needs at most `n` divisions by 10. -/
def natDigitsAux : Nat → Nat → List Nat
  | 0, n => [48 + n % 10]
  | fuel + 1, n => if n < 10 then [48 + n] else natDigitsAux fuel (n / 10) ++ [48 + n % 10]

/-- Decimal digit bytes of a natural number, most significant first. -/
def natDigits (n : Nat) : List Nat := natDigitsAux n n

/-- Value of a list of decimal digit bytes. -/
def digitsToNat (ds : List Nat) : Nat := ds.foldl (fun acc d => acc * 10 + (d - 48)) 0

def isDigitB (c : Nat) : Bool := decide (48 ≤ c) && decide (c ≤ 57)

/-- Take the longest prefix satisfying `p`, and the remainder. -/
def spanB (p : Nat → Bool) : List Nat → List Nat × List Nat
  | [] => ([], [])
  | c :: cs =>
      if p c then
        let t := spanB p cs
        (c :: t.1, t.2)
      else ([], c :: cs)

/-- Consume an expected literal from the front; `none` when it does not match. -/
def dropLit : List Nat → List Nat → Option (List Nat)
  | [], s => some s
  | _ :: _, [] => none
  | l :: ls, c :: cs => if l = c then dropLit ls cs else none

/-- Bytes of the literal substring before the exp value. -/
def jsonHead : List Nat := [123, 34, 101, 120, 112, 34, 58]

/-- Bytes of the literal between the exp value and the token. -/
def jsonMid : List Nat := [44, 34, 116, 34, 58, 34]

/-- Bytes of the literal between the token and the version number. -/
def jsonTail : List Nat := [34, 44, 34, 118, 34, 58]

/-- The canonical serialization produced by `json.dumps` inside
`sign_session_cookie`: the bytes of the text
`{"exp":<exp>,"t":"<token>","v":1}`. -/
def payloadJson (token : List Nat) (exp : Nat) : List Nat :=
  jsonHead ++ natDigits exp ++ jsonMid ++ token ++ jsonTail ++ [49, 125]

/-- Parse a canonical payload back into `(token, exp, v)`.  Models
`json.loads` followed by the field reads in `unsign_session_cookie`, on
payloads of the canonical shape. -/
def parsePayload (s : List Nat) : Option (List Nat × Nat × Nat) :=
  (dropLit jsonHead s).bind fun r1 =>
    let e := spanB isDigitB r1
    if e.1.isEmpty then none
    else
      (dropLit jsonMid e.2).bind fun r3 =>
        let t := spanB (fun c => c != 34) r3
        (dropLit jsonTail t.2).bind fun r5 =>
          let v := spanB isDigitB r5
          if v.1.isEmpty then none
          else if v.2 = [125] then
            some (t.1, digitsToNat e.1, digitsToNat v.1)
          else none

/-- Characters that can occur in a `secrets.token_urlsafe` session token. -/
def urlTokenByte (c : Nat) : Prop :=
  (48 ≤ c ∧ c ≤ 57) ∨ (65 ≤ c ∧ c ≤ 90) ∨ (97 ≤ c ∧ c ≤ 122) ∨ c = 45 ∨ c = 95

instance (c : Nat) : Decidable (urlTokenByte c) := by unfold urlTokenByte; infer_instance

theorem dropLit_append (lit rest : List Nat) : dropLit lit (lit ++ rest) = some rest := by
  induction lit with
  | nil => rfl
  | cons l ls ih => simp [dropLit, ih]

theorem spanB_append (p : Nat → Bool) (xs : List Nat) (y : Nat) (ys : List Nat)
    (hall : ∀ x ∈ xs, p x = true) (hy : p y = false) :
    spanB p (xs ++ y :: ys) = (xs, y :: ys) := by
  induction xs with
  | nil => simp [spanB, hy]
  | cons x t ih =>
      have hx : p x = true := hall x (by simp)
      have ht : ∀ x ∈ t, p x = true := fun z hz => hall z (by simp [hz])
      simp [spanB, hx, ih ht]

theorem natDigitsAux_digit : ∀ fuel n, ∀ c ∈ natDigitsAux fuel n, 48 ≤ c ∧ c ≤ 57 := by
  intro fuel
  induction fuel with
  | zero =>
      intro n c hc
      simp [natDigitsAux] at hc
      have : n % 10 < 10 := Nat.mod_lt _ (by omega)
      omega
  | succ f ih =>
      intro n c hc
      unfold natDigitsAux at hc
      by_cases h : n < 10
      · rw [if_pos h] at hc
        simp at hc
        omega
      · rw [if_neg h] at hc
        rcases List.mem_append.mp hc with h1 | h2
        · exact ih (n / 10) c h1
        · simp at h2
          have : n % 10 < 10 := Nat.mod_lt _ (by omega)
          omega

theorem natDigits_digit (n : Nat) : ∀ c ∈ natDigits n, 48 ≤ c ∧ c ≤ 57 :=
  natDigitsAux_digit n n

theorem natDigitsAux_ne_nil (fuel n : Nat) : natDigitsAux fuel n ≠ [] := by
  cases fuel with
  | zero => simp [natDigitsAux]
  | succ f => unfold natDigitsAux; split <;> simp

theorem natDigits_ne_nil (n : Nat) : natDigits n ≠ [] := natDigitsAux_ne_nil n n

theorem digitsToNat_natDigitsAux : ∀ fuel n, n ≤ fuel →
    digitsToNat (natDigitsAux fuel n) = n := by
  intro fuel
  induction fuel with
  | zero =>
      intro n hn
      have : n = 0 := by omega
      subst this
      rfl
  | succ f ih =>
      intro n hn
      unfold natDigitsAux
      by_cases h : n < 10
      · rw [if_pos h]
        simp [digitsToNat]
      · rw [if_neg h]
        have hle : n / 10 ≤ f := by omega
        unfold digitsToNat at ih ⊢
        rw [List.foldl_append]
        simp only [List.foldl]
        rw [ih (n / 10) hle]
        omega

theorem digitsToNat_natDigits (n : Nat) : digitsToNat (natDigits n) = n :=
  digitsToNat_natDigitsAux n n (Nat.le_refl n)

theorem spanB_digits_before_mid (exp : Nat) (X : List Nat) :
    spanB isDigitB (natDigits exp ++ (jsonMid ++ X)) = (natDigits exp, jsonMid ++ X) := by
  have hdig : ∀ c ∈ natDigits exp, isDigitB c = true := by
    intro c hc
    have := natDigits_digit exp c hc
    simp [isDigitB]; omega
  have h : jsonMid ++ X = 44 :: ([34, 116, 34, 58, 34] ++ X) := rfl
  rw [h, spanB_append isDigitB (natDigits exp) 44 _ hdig (by simp [isDigitB]), ← h]

theorem spanB_token_before_tail (token : List Nat) (X : List Nat)
    (hw : ∀ c ∈ token, urlTokenByte c) :
    spanB (fun c => c != 34) (token ++ (jsonTail ++ X)) = (token, jsonTail ++ X) := by
  have htok : ∀ c ∈ token, (c != 34) = true := by
    intro c hc
    have := hw c hc
    unfold urlTokenByte at this
    simp only [bne_iff_ne, ne_eq]
    omega
  have h : jsonTail ++ X = 34 :: ([44, 34, 118, 34, 58] ++ X) := rfl
  rw [h, spanB_append _ token 34 _ htok (by simp), ← h]

theorem parsePayload_payloadJson (token : List Nat) (exp : Nat)
    (hw : ∀ c ∈ token, urlTokenByte c) :
    parsePayload (payloadJson token exp) = some (token, exp, 1) := by
  have hne : (natDigits exp).isEmpty = false := by
    rcases h : natDigits exp with _ | _
    · exact absurd h (natDigits_ne_nil exp)
    · rfl
  have hassoc : payloadJson token exp
      = jsonHead ++ (natDigits exp ++ (jsonMid ++ (token ++ (jsonTail ++ [49, 125])))) := by
    simp [payloadJson, List.append_assoc]
  rw [parsePayload, hassoc, dropLit_append]
  simp only [Option.some_bind, spanB_digits_before_mid, hne, Bool.false_eq_true, if_false,
    dropLit_append, spanB_token_before_tail token _ hw]
  rw [show ([49, 125] : List Nat) = [49] ++ 125 :: [] from rfl]
  rw [spanB_append isDigitB [49] 125 [] (by simp [isDigitB]) (by simp [isDigitB])]
  simp [digitsToNat_natDigits, digitsToNat]
  exact digitsToNat_natDigits exp

/-! ### Signing and verifying session cookies

`SESSION_SECRETS` is a list of byte strings; `mac` stands for
`hmac.new(secret, message, hashlib.sha256).digest()`.  Timestamps are the
integer Unix seconds that the Python code compares. -/

/-- `sign_session_cookie`: with no configured secrets the raw token is
returned (degraded mode); otherwise `v1.<payload_b64>.<sig_b64>` where the
payload is the canonical JSON and the signature is the MAC of the payload
text under the first secret. -/
def sign_session_cookie (secrets : List (List Nat))
    (mac : List Nat → List Nat → List Nat) (token : List Nat) (exp : Nat) : List Nat :=
  match secrets with
  | [] => token
  | s0 :: _ =>
      let payloadB64 := b64urlEncode (payloadJson token exp)
      v1dot ++ payloadB64 ++ dotByte :: b64urlEncode (mac s0 payloadB64)

/-- Split at the first occurrence of byte `c`; `none` when absent. -/
def splitAtFirst (c : Nat) : List Nat → Option (List Nat × List Nat)
  | [] => none
  | x :: xs =>
      if x = c then some ([], xs)
      else (splitAtFirst c xs).map fun p => (x :: p.1, p.2)

/-- `cookie_value.split(".", 2)` unpacked into exactly three parts; `none`
when the string has fewer than two dots (the `ValueError` branch). -/
def split3 (s : List Nat) : Option (List Nat × List Nat × List Nat) :=
  (splitAtFirst dotByte s).bind fun p1 =>
    (splitAtFirst dotByte p1.2).map fun p2 => (p1.1, p2.1, p2.2)

/-- `unsign_session_cookie`: check the `v1.` prefix, split into three parts,
require configured secrets, base64-decode the signature, compare it against
the MAC of the payload text under every configured secret in order
(`hmac.compare_digest`), then decode and parse the payload and check
version, token presence and expiry against `now`. -/
def unsign_session_cookie (secrets : List (List Nat))
    (mac : List Nat → List Nat → List Nat) (now : Nat) (cookie : List Nat) :
    Option (List Nat) :=
  if v1dot.isPrefixOf cookie then
    match split3 cookie with
    | none => none
    | some (_, payloadB64, sigB64) =>
        if secrets.isEmpty then none
        else
          match b64urlDecode sigB64 with
          | none => none
          | some sigBytes =>
              if secrets.any fun s => mac s payloadB64 == sigBytes then
                match b64urlDecode payloadB64 with
                | none => none
                | some payloadBytes =>
                    match parsePayload payloadBytes with
                    | none => none
                    | some (tok, exp, v) =>
                        if v = 1 then
                          if tok = [] ∨ exp = 0 then none
                          else if exp < now then none
                          else some tok
                        else none
              else none
  else none

theorem splitAtFirst_append (c : Nat) (xs ys : List Nat) (h : c ∉ xs) :
    splitAtFirst c (xs ++ c :: ys) = some (xs, ys) := by
  induction xs with
  | nil => simp [splitAtFirst]
  | cons x t ih =>
      have hx : x ≠ c := fun he => h (by simp [he])
      have ht : c ∉ t := fun hm => h (by simp [hm])
      simp [splitAtFirst, hx, ih ht]

theorem b64CharVal_dot : b64CharVal dotByte = none := by decide

/-- No byte of an encoder output is the dot separator. -/
theorem encode_no_dot (bs : List Nat) : dotByte ∉ b64urlEncode bs := by
  intro hmem
  have := encode_chars_valid bs dotByte hmem
  rw [b64CharVal_dot] at this
  simp at this

/-- Splitting a well-formed signed cookie recovers the prefix, payload and
signature parts. -/
theorem split3_cookie (P S : List Nat) (hP : dotByte ∉ P) :
    split3 (v1dot ++ P ++ dotByte :: S) = some ([118, 49], P, S) := by
  have h1 : v1dot ++ P ++ dotByte :: S
      = [118, 49] ++ dotByte :: (P ++ dotByte :: S) := by
    simp [v1dot, dotByte]
  rw [split3, h1, splitAtFirst_append dotByte [118, 49] _ (by simp [dotByte])]
  simp only [Option.some_bind]
  rw [splitAtFirst_append dotByte P S hP]
  rfl

theorem v1dot_isPrefixOf (r : List Nat) : v1dot.isPrefixOf (v1dot ++ r) = true := by
  simp [v1dot, List.isPrefixOf]

/-- All bytes of a canonical payload are octets. -/
theorem payloadJson_bytes (token : List Nat) (exp : Nat)
    (hw : ∀ c ∈ token, urlTokenByte c) : ∀ c ∈ payloadJson token exp, c < 256 := by
  intro c hc
  simp only [payloadJson, List.mem_append] at hc
  rcases hc with ((((h | h) | h) | h) | h) | h
  · simp [jsonHead] at h; omega
  · have := natDigits_digit exp c h; omega
  · simp [jsonMid] at h; omega
  · have := hw c h; unfold urlTokenByte at this; omega
  · simp [jsonTail] at h; omega
  · simp at h; omega

/-- Verifying a cookie signed under head secret `s0` succeeds under any
secret list that contains `s0`, and returns the embedded token.  This is the
common core of the sign/unsign round trip and of secret rotation. -/
theorem unsign_sign_of_mem (secrets' : List (List Nat)) (s0 : List Nat)
    (rest : List (List Nat)) (mac : List Nat → List Nat → List Nat)
    (token : List Nat) (exp now : Nat)
    (hmem : s0 ∈ secrets')
    (htok : token ≠ []) (hw : ∀ c ∈ token, urlTokenByte c)
    (hexp : 0 < exp) (hnow : now ≤ exp)
    (hd : ∀ x ∈ mac s0 (b64urlEncode (payloadJson token exp)), x < 256) :
    unsign_session_cookie secrets' mac now (sign_session_cookie (s0 :: rest) mac token exp)
      = some token := by
  have hsign : sign_session_cookie (s0 :: rest) mac token exp
      = v1dot ++ b64urlEncode (payloadJson token exp)
        ++ dotByte :: b64urlEncode (mac s0 (b64urlEncode (payloadJson token exp))) := rfl
  have hpne : secrets'.isEmpty = false := by
    cases secrets' with
    | nil => exact absurd hmem (by simp)
    | cons a t => rfl
  have hpw : ∀ c ∈ payloadJson token exp, c < 256 := payloadJson_bytes token exp hw
  rw [hsign, unsign_session_cookie, if_pos (by rw [show v1dot ++ b64urlEncode (payloadJson token exp) ++ dotByte :: b64urlEncode (mac s0 (b64urlEncode (payloadJson token exp))) = v1dot ++ (b64urlEncode (payloadJson token exp) ++ dotByte :: b64urlEncode (mac s0 (b64urlEncode (payloadJson token exp)))) from by simp, v1dot_isPrefixOf])]
  rw [show v1dot ++ b64urlEncode (payloadJson token exp)
        ++ dotByte :: b64urlEncode (mac s0 (b64urlEncode (payloadJson token exp)))
      = v1dot ++ (b64urlEncode (payloadJson token exp))
        ++ dotByte :: b64urlEncode (mac s0 (b64urlEncode (payloadJson token exp)))
      from by simp]
  rw [split3_cookie _ _ (encode_no_dot _)]
  have hany : (secrets'.any fun s =>
      mac s (b64urlEncode (payloadJson token exp))
        == mac s0 (b64urlEncode (payloadJson token exp))) = true := by
    rw [List.any_eq_true]
    exact ⟨s0, hmem, by simp⟩
  have hc1 : (token = [] ∨ exp = 0) = False := by
    apply eq_false
    rintro (h | h)
    · exact htok h
    · omega
  have hc2 : (exp < now) = False := eq_false (by omega)
  simp only [hpne, Bool.false_eq_true, if_false, b64url_roundtrip _ hd,
    b64url_roundtrip _ hpw, parsePayload_payloadJson token exp hw, hany, if_true,
    hc1, hc2]

/-- A dot that survives into the signature field makes the base64 decode
fail: the dot is discarded by the decoder, so together with the padding
computed from the undiscarded length the kept length is 3 mod 4. -/
theorem b64urlDecode_dot_none (xs ys : List Nat)
    (hxs : ∀ c ∈ xs, (b64CharVal c).isSome = true)
    (hys : ∀ c ∈ ys, (b64CharVal c).isSome = true) :
    b64urlDecode (xs ++ dotByte :: ys) = none := by
  simp only [b64urlDecode]
  have hq : ∀ c, (b64CharVal c).isSome = true →
      ((b64CharVal c).isSome || c == eqByte) = true := by
    intro c hc; simp [hc]
  have hfx : xs.filter (fun c => (b64CharVal c).isSome || c == eqByte) = xs :=
    List.filter_eq_self.mpr fun c hc => hq c (hxs c hc)
  have hfy : ys.filter (fun c => (b64CharVal c).isSome || c == eqByte) = ys :=
    List.filter_eq_self.mpr fun c hc => hq c (hys c hc)
  have hdot : ((b64CharVal dotByte).isSome || dotByte == eqByte) = false := by decide
  have hrep : ∀ p, (List.replicate p eqByte).filter
      (fun c => (b64CharVal c).isSome || c == eqByte) = List.replicate p eqByte :=
    fun p => List.filter_eq_self.mpr fun c hc => by
      rw [List.eq_of_mem_replicate hc]; simp
  rw [show (xs ++ dotByte :: ys)
        ++ List.replicate ((4 - (xs ++ dotByte :: ys).length % 4) % 4) eqByte
      = xs ++ dotByte :: (ys
        ++ List.replicate ((4 - (xs ++ dotByte :: ys).length % 4) % 4) eqByte)
      from by simp]
  rw [List.filter_append, hfx, List.filter_cons_of_neg (by simp [hdot]),
    List.filter_append, hfy, hrep]
  rw [if_neg]
  simp only [List.length_append, List.length_cons, List.length_replicate]
  omega

/-- When the base64 decode of the signature field fails, verification
rejects, whatever the configured secrets. -/
theorem unsign_none_of_sig_undecodable (secrets' : List (List Nat))
    (mac : List Nat → List Nat → List Nat) (now : Nat) (P S : List Nat)
    (hP : dotByte ∉ P) (hdec : b64urlDecode S = none) :
    unsign_session_cookie secrets' mac now (v1dot ++ P ++ dotByte :: S) = none := by
  rw [unsign_session_cookie,
    if_pos (by rw [show v1dot ++ P ++ dotByte :: S = v1dot ++ (P ++ dotByte :: S) from by simp,
      v1dot_isPrefixOf]),
    split3_cookie P S hP]
  cases h : secrets'.isEmpty <;> simp [h, hdec]

/-- When the decoded signature matches the MAC of the payload text under no
configured secret, verification rejects. -/
theorem unsign_none_of_not_verified (secrets' : List (List Nat))
    (mac : List Nat → List Nat → List Nat) (now : Nat) (P S d : List Nat)
    (hP : dotByte ∉ P) (hdec : b64urlDecode S = some d)
    (hver : ∀ s ∈ secrets', mac s P ≠ d) :
    unsign_session_cookie secrets' mac now (v1dot ++ P ++ dotByte :: S) = none := by
  rw [unsign_session_cookie,
    if_pos (by rw [show v1dot ++ P ++ dotByte :: S = v1dot ++ (P ++ dotByte :: S) from by simp,
      v1dot_isPrefixOf]),
    split3_cookie P S hP]
  have hany : (secrets'.any fun s => mac s P == d) = false := by
    rw [List.any_eq_false]
    intro s hs
    simpa using hver s hs
  cases h : secrets'.isEmpty <;> simp [h, hdec, hany]

/-- A message-injective stand-in for HMAC-SHA256, used to instantiate
witnesses: the digest is the message itself. -/
def macId : List Nat → List Nat → List Nat := fun _ m => m

/-- **C1** (amended).  With a non-empty secret list, a URL-safe token and a
future expiry: sign-then-unsign returns the original token; mutating a
single byte of the payload part makes `unsign_session_cookie` reject
provided the MAC of the mutated payload text differs from the original
signature under every configured secret (MAC collision freedom, a property
of the external primitive); and mutating a single byte of the signature
part makes it reject unless the mutated signature still base64-decodes to a
digest equal to the MAC of the payload under some configured secret — which
does happen when only base64 padding bits of the final signature character
change, so the unconditional rejection stated in the original claim is
false (see the counterexample). -/
theorem c1_sign_unsign_roundtrip_and_tamper (s0 : List Nat) (rest : List (List Nat))
    (mac : List Nat → List Nat → List Nat) (token : List Nat) (exp now : Nat)
    (P S : List Nat)
    (hP : P = b64urlEncode (payloadJson token exp))
    (hS : S = b64urlEncode (mac s0 P))
    (htok : token ≠ []) (hw : ∀ c ∈ token, urlTokenByte c)
    (hexp : 0 < exp) (hnow : now ≤ exp)
    (hd : ∀ x ∈ mac s0 P, x < 256) :
    (unsign_session_cookie (s0 :: rest) mac now
        (sign_session_cookie (s0 :: rest) mac token exp) = some token)
    ∧ (∀ i b, i < P.length → P[i]? ≠ some b →
        (∀ s ∈ s0 :: rest, mac s (P.set i b) ≠ mac s0 P) →
        unsign_session_cookie (s0 :: rest) mac now
          (v1dot ++ P.set i b ++ dotByte :: S) = none)
    ∧ (∀ j b, j < S.length → S[j]? ≠ some b →
        (∀ s ∈ s0 :: rest, b64urlDecode (S.set j b) ≠ some (mac s P)) →
        unsign_session_cookie (s0 :: rest) mac now
          (v1dot ++ P ++ dotByte :: S.set j b) = none) := by
  subst hP
  subst hS
  refine ⟨?_, ?_, ?_⟩
  · exact unsign_sign_of_mem _ s0 rest mac token exp now (by simp) htok hw hexp hnow hd
  · intro i b hi _hb hcf
    by_cases hdot : b = dotByte
    · subst hdot
      rw [List.set_eq_take_cons_drop dotByte hi]
      rw [show v1dot ++ ((b64urlEncode (payloadJson token exp)).take i
            ++ dotByte :: (b64urlEncode (payloadJson token exp)).drop (i + 1))
            ++ dotByte :: b64urlEncode (mac s0 (b64urlEncode (payloadJson token exp)))
          = v1dot ++ (b64urlEncode (payloadJson token exp)).take i
            ++ dotByte :: ((b64urlEncode (payloadJson token exp)).drop (i + 1)
              ++ dotByte :: b64urlEncode (mac s0 (b64urlEncode (payloadJson token exp))))
          from by simp]
      refine unsign_none_of_sig_undecodable _ mac now _ _ ?_ ?_
      · exact fun hmem => encode_no_dot _ (List.take_subset i _ hmem)
      · refine b64urlDecode_dot_none _ _ ?_ ?_
        · exact fun c hc => encode_chars_valid _ c (List.drop_subset (i + 1) _ hc)
        · exact fun c hc => encode_chars_valid _ c hc
    · have hPn : dotByte ∉ (b64urlEncode (payloadJson token exp)).set i b := by
        intro hmem
        rcases List.mem_or_eq_of_mem_set hmem with h | h
        · exact encode_no_dot _ h
        · exact hdot h.symm
      exact unsign_none_of_not_verified _ mac now _ _ _ hPn (b64url_roundtrip _ hd) hcf
  · intro j b hj _hb hnc
    by_cases hdot : b = dotByte
    · subst hdot
      rw [List.set_eq_take_cons_drop dotByte hj]
      refine unsign_none_of_sig_undecodable _ mac now _ _ (encode_no_dot _) ?_
      refine b64urlDecode_dot_none _ _ ?_ ?_
      · exact fun c hc => encode_chars_valid _ c (List.take_subset j _ hc)
      · exact fun c hc => encode_chars_valid _ c (List.drop_subset (j + 1) _ hc)
    · cases hdec : b64urlDecode
          ((b64urlEncode (mac s0 (b64urlEncode (payloadJson token exp)))).set j b) with
      | none => exact unsign_none_of_sig_undecodable _ mac now _ _ (encode_no_dot _) hdec
      | some d =>
          refine unsign_none_of_not_verified _ mac now _ _ d (encode_no_dot _) hdec ?_
          intro s hs heq
          exact hnc s hs (hdec.trans (congrArg some heq.symm))

/-- Witness for C1: a concrete token `"t"`, secret `"s"`, expiry 1, clock 0,
with the message-injective MAC model; all hypotheses hold and the theorem
applies. -/
theorem c1_sign_unsign_roundtrip_and_tamper_witness :
    (([116] : List Nat) ≠ [] ∧ (∀ c ∈ ([116] : List Nat), urlTokenByte c)
      ∧ (0 : Nat) < 1 ∧ (0 : Nat) ≤ 1
      ∧ (∀ x ∈ macId [115] (b64urlEncode (payloadJson [116] 1)), x < 256))
    ∧ ((unsign_session_cookie [[115]] macId 0
          (sign_session_cookie [[115]] macId [116] 1) = some [116])
      ∧ (∀ i b, i < (b64urlEncode (payloadJson [116] 1)).length →
          (b64urlEncode (payloadJson [116] 1))[i]? ≠ some b →
          (∀ s ∈ [[115]], macId s ((b64urlEncode (payloadJson [116] 1)).set i b)
            ≠ macId [115] (b64urlEncode (payloadJson [116] 1))) →
          unsign_session_cookie [[115]] macId 0
            (v1dot ++ (b64urlEncode (payloadJson [116] 1)).set i b
              ++ dotByte :: b64urlEncode (macId [115] (b64urlEncode (payloadJson [116] 1))))
            = none)
      ∧ (∀ j b,
          j < (b64urlEncode (macId [115] (b64urlEncode (payloadJson [116] 1)))).length →
          (b64urlEncode (macId [115] (b64urlEncode (payloadJson [116] 1))))[j]? ≠ some b →
          (∀ s ∈ [[115]],
            b64urlDecode
              ((b64urlEncode (macId [115] (b64urlEncode (payloadJson [116] 1)))).set j b)
            ≠ some (macId s (b64urlEncode (payloadJson [116] 1)))) →
          unsign_session_cookie [[115]] macId 0
            (v1dot ++ b64urlEncode (payloadJson [116] 1)
              ++ dotByte :: (b64urlEncode
                  (macId [115] (b64urlEncode (payloadJson [116] 1)))).set j b) = none)) :=
  ⟨⟨by decide, by decide, by decide, by decide, by decide⟩,
    c1_sign_unsign_roundtrip_and_tamper [115] [] macId [116] 1 0 _ _ rfl rfl
      (by decide) (by decide) (by decide) (by decide) (by decide)⟩

/-- Counterexample to C1 as stated: the signed cookie for token `"t"` under
secret `"s"` has length 77; its final byte (a signature-part byte, the
base64 character `A`) mutated to `B` changes only base64 padding bits, so
the mutated cookie still decodes to the same signature bytes and
`unsign_session_cookie` accepts it, returning the token — a single-byte
signature mutation that is NOT rejected.  (The acceptance does not depend
on the MAC: the decoded signature bytes are unchanged.) -/
theorem c1_single_byte_mutation_accepted :
    (sign_session_cookie [[115]] macId [116] 1).length = 77
    ∧ (sign_session_cookie [[115]] macId [116] 1)[76]? = some 65
    ∧ unsign_session_cookie [[115]] macId 0
        ((sign_session_cookie [[115]] macId [116] 1).set 76 66) = some [116] := by
  refine ⟨by decide, by decide, by decide⟩

/-- **C7**: a cookie signed when the secret list had head `s0` verifies
under any secret list that still contains `s0` — in particular after
prepending fresh secrets — and yields the same token, because
`unsign_session_cookie` tries every configured secret in order. -/
theorem c7_rotation_preserves_cookies (secrets' : List (List Nat)) (s0 : List Nat)
    (rest : List (List Nat)) (mac : List Nat → List Nat → List Nat)
    (token : List Nat) (exp now : Nat)
    (hmem : s0 ∈ secrets')
    (htok : token ≠ []) (hw : ∀ c ∈ token, urlTokenByte c)
    (hexp : 0 < exp) (hnow : now ≤ exp)
    (hd : ∀ x ∈ mac s0 (b64urlEncode (payloadJson token exp)), x < 256) :
    unsign_session_cookie secrets' mac now
      (sign_session_cookie (s0 :: rest) mac token exp) = some token :=
  unsign_sign_of_mem secrets' s0 rest mac token exp now hmem htok hw hexp hnow hd

/-- Witness for C7: the cookie signed under `["s"]` still verifies under
the extended list `["n", "s"]` with the fresh secret prepended. -/
theorem c7_rotation_preserves_cookies_witness :
    (([115] : List Nat) ∈ [[110], [115]] ∧ ([116] : List Nat) ≠ []
      ∧ (∀ c ∈ ([116] : List Nat), urlTokenByte c) ∧ (0 : Nat) < 1 ∧ (0 : Nat) ≤ 1
      ∧ (∀ x ∈ macId [115] (b64urlEncode (payloadJson [116] 1)), x < 256))
    ∧ unsign_session_cookie [[110], [115]] macId 0
        (sign_session_cookie [[115]] macId [116] 1) = some [116] :=
  ⟨⟨by decide, by decide, by decide, by decide, by decide, by decide⟩,
    c7_rotation_preserves_cookies [[110], [115]] [115] [] macId [116] 1 0
      (by decide) (by decide) (by decide) (by decide) (by decide) (by decide)⟩

/-! ### Part 2: hosts, command queue, sessions, agent auth

A row of the `hosts` table.  Timestamps are Unix seconds (`Option Nat`
for nullable TEXT columns holding ISO timestamps; the ISO encoding is
order-preserving so comparisons carry over).  `test_running` is the
INTEGER 0/1 column as a `Bool`. -/

structure Host where
  id : String
  hostname : String
  host_type : String
  location : Option String
  device_type : Option String
  theme_color : Option String
  criticality : Option String
  icon : Option String
  last_seen : Option Nat
  last_switch : Option Nat
  last_audit : Option Nat
  last_fix : Option Nat
  current_generation : Option String
  status : Option String
  pending_command : Option String
  command_queued_at : Option Nat
  comment : Option String
  test_status : Option String
  config_repo : Option String
  test_running : Bool
  test_current : Nat
  test_total : Nat
  test_passed_count : Nat
  test_result : Option String
  poll_interval : Nat
  metrics : Option String
  agent_token_hash : Option String
  deriving Repr, DecidableEq

/-- A row of the append-only `command_log` table. -/
structure LogEntry where
  host_id : String
  command : String
  status : String
  output : Option String
  created_at : Nat
  completed_at : Option Nat
  deriving Repr, DecidableEq

/-- A row of the `sessions` table. -/
structure Session where
  token : String
  csrf_token : String
  expires_at : Nat
  created_at : Nat
  deriving Repr, DecidableEq

/-- The durable store: hosts and command log. -/
structure AppDb where
  hosts : List Host
  log : List LogEntry
  deriving Repr, DecidableEq

/-- Environment configuration relevant to agent authentication:
`NIXFLEET_ALLOW_SHARED_AGENT_TOKEN`, `NIXFLEET_AUTO_PROVISION_AGENT_TOKENS`,
`NIXFLEET_API_TOKEN` and `NIXFLEET_AGENT_TOKEN_HASH_SECRET` (empty string =
unset). -/
structure Config where
  allowShared : Bool
  autoProvision : Bool
  apiToken : String
  agentHashSecret : String
  deriving Repr, DecidableEq

/-- Python truthiness of a nullable string column (`None` and `""` are
both falsy). -/
def truthyS (o : Option String) : Bool := o.getD "" != ""

/-- `SELECT ... WHERE id = ? ... fetchone()`. -/
def findHost (db : AppDb) (hid : String) : Option Host := db.hosts.find? (·.id == hid)

/-- `rowcount > 0` for an UPDATE/SELECT keyed on the host id. -/
def hostExists (db : AppDb) (hid : String) : Bool := db.hosts.any (·.id == hid)

/-- `UPDATE hosts SET ... WHERE id = ?`: apply `f` to every row whose id
matches (ids are a primary key, so at most one in practice). -/
def updateHosts (db : AppDb) (hid : String) (f : Host → Host) : AppDb :=
  { db with hosts := db.hosts.map fun h => if h.id == hid then f h else h }

/-- Append a row to `command_log`. -/
def appendLog (db : AppDb) (e : LogEntry) : AppDb := { db with log := db.log ++ [e] }

/-- The row inserted by `poll_commands` when a poll arrives for an unknown
host (auto-registration): explicit columns from the INSERT, remaining
columns from the schema defaults. -/
def defaultPollHost (hid : String) (now : Nat) : Host :=
  { id := hid, hostname := hid, host_type := "nixos", location := some "home",
    device_type := some "server", theme_color := some "#769ff0",
    criticality := some "low", icon := none, last_seen := some now,
    last_switch := none, last_audit := none, last_fix := none,
    current_generation := none, status := some "ok", pending_command := none,
    command_queued_at := none, comment := none, test_status := none,
    config_repo := none, test_running := false, test_current := 0,
    test_total := 0, test_passed_count := 0, test_result := none,
    poll_interval := 30, metrics := none, agent_token_hash := none }

/-- Response body of `poll_commands`. -/
structure PollResp where
  command : Option String
  agent_token : Option String
  deriving Repr, DecidableEq

/-- First stage of `poll_commands` (lines 1390-1402): update `last_seen`
for an existing host, or insert the auto-registration row. -/
def pollTouch (db : AppDb) (hid : String) (now : Nat) : AppDb :=
  if hostExists db hid then
    updateHosts db hid fun h => { h with last_seen := some now }
  else
    { db with hosts := db.hosts ++ [defaultPollHost hid now] }

/-- Second stage of `poll_commands` (lines 1404-1408): when auto-provision
is enabled, the hash secret configured and the host has no truthy stored
hash, store the keyed hash of a freshly minted token and remember the raw
token for the response. -/
def pollProvision (cfg : Config) (hashTok : String → String → String)
    (freshTok : String) (db1 : AppDb) (hid : String) : AppDb × Option String :=
  if cfg.autoProvision && cfg.agentHashSecret != ""
      && !truthyS ((findHost db1 hid).bind (·.agent_token_hash)) then
    (updateHosts db1 hid fun h =>
        { h with agent_token_hash := some (hashTok cfg.agentHashSecret freshTok) },
     some freshTok)
  else (db1, none)

/-- Third stage of `poll_commands` (lines 1412-1436): read the mailbox; a
truthy pending command is cleared, an open `running` log entry appended, and
the command returned; otherwise the response command is null. -/
def pollDeliver (db2 : AppDb) (hid : String) (now : Nat)
    (provisioned : Option String) : AppDb × PollResp :=
  match (findHost db2 hid).bind (·.pending_command) with
  | some c =>
      if c != "" then
        (appendLog (updateHosts db2 hid fun h' => { h' with pending_command := none })
          { host_id := hid, command := c, status := "running", output := none,
            created_at := now, completed_at := none },
         { command := some c, agent_token := provisioned })
      else (db2, { command := none, agent_token := provisioned })
  | none => (db2, { command := none, agent_token := provisioned })

/-- `poll_commands` after authentication (`hashTok` models
`hash_agent_token`'s keyed hash, `freshTok` the token minted by
`secrets.token_urlsafe` if auto-provisioning fires): update `last_seen` or
auto-register, optionally provision a per-host token hash, then read the
mailbox; a pending command is cleared and an open `running` log entry
appended before it is returned. -/
def pollCommands (cfg : Config) (hashTok : String → String → String)
    (freshTok : String) (db : AppDb) (hid : String) (now : Nat) :
    AppDb × PollResp :=
  let db1 := pollTouch db hid now
  let p := pollProvision cfg hashTok freshTok db1 hid
  pollDeliver p.1 hid now p.2

/-- `queue_command` after session/CSRF checks: `stop` clears the mailbox and
test state immediately, `test` queues and resets the test counters, any
other command is written to the single-slot mailbox; `none` models the 404
when no row matched. -/
def queueCommand (db : AppDb) (hid : String) (cmd : String) (now : Nat) :
    Option AppDb :=
  if hostExists db hid then
    some <|
      if cmd == "stop" then
        updateHosts db hid fun h =>
          { h with pending_command := none, test_running := false, status := some "ok" }
      else if cmd == "test" then
        updateHosts db hid fun h =>
          { h with pending_command := some "test", command_queued_at := some now,
                   test_running := true, test_current := 0, test_total := 0,
                   test_passed_count := 0, test_result := none }
      else
        updateHosts db hid fun h =>
          { h with pending_command := some cmd, command_queued_at := some now }
  else none

/-- Validated body of a status report (`HostStatus`). -/
structure StatusReport where
  status : String
  current_generation : Option String
  output : Option String
  test_status : Option String
  comment : Option String
  deriving Repr, DecidableEq

/-- Bytewise lexicographic order on character lists (SQLite BINARY
collation). -/
def charListLe : List Char → List Char → Bool
  | [], _ => true
  | _ :: _, [] => false
  | a :: as, b :: bs => a.toNat < b.toNat || (a.toNat == b.toNat && charListLe as bs)

/-- Does `pat` start the list? -/
def startsWithL (pat s : List Char) : Bool :=
  match pat, s with
  | [], _ => true
  | _ :: _, [] => false
  | p :: ps, c :: cs => p == c && startsWithL ps cs

/-- Does `pat` occur anywhere in the list (`pat in s` for strings)? -/
def hasSubL (pat : List Char) : List Char → Bool
  | [] => pat.isEmpty
  | c :: cs => startsWithL pat (c :: cs) || hasSubL pat cs

/-- Python `pat in s` on strings. -/
def strHasSub (s pat : String) : Bool := hasSubL pat.toList s.toList

/-- `output.split('\n')[0][:100]`. -/
def firstLine100 (s : String) : String :=
  String.mk ((s.toList.takeWhile fun c => c != '\n').take 100)

/-- The comment derived from the report in `update_status` when the agent
sent no comment: first output line on error, recognised pull messages
otherwise. -/
def deriveComment (status output : String) : Option String :=
  if status == "error" then some (firstLine100 output)
  else if strHasSub output "Already up to date" || strHasSub output "Already up-to-date" then
    some "Already up to date"
  else if strHasSub output "Updating" then some "Pull successful"
  else none

/-- The comment `update_status` writes: the reported comment when truthy,
else a derivation from a truthy output, else the original (possibly null)
comment. -/
def commentOf (st : StatusReport) : Option String :=
  if truthyS st.comment then st.comment
  else
    match st.output with
    | some out =>
        if out != "" then
          match deriveComment st.status out with
          | some c => some c
          | none => st.comment
        else st.comment
    | none => st.comment

/-- `COALESCE(?, column)`: the new value when non-null, else the stored one. -/
def coalesce (a b : Option String) : Option String :=
  match a with
  | some x => some x
  | none => b

/-- Index and creation time of the newest open log entry for a host
(`WHERE host_id = ? AND completed_at IS NULL ORDER BY created_at DESC
LIMIT 1`; ties broken towards the later row). -/
def newestOpenIdx (log : List LogEntry) (hid : String) : Option (Nat × Nat) :=
  log.enum.foldl
    (fun best p =>
      if p.2.host_id == hid && p.2.completed_at.isNone then
        match best with
        | none => some (p.1, p.2.created_at)
        | some q => if q.2 ≤ p.2.created_at then some (p.1, p.2.created_at) else some q
      else best)
    none

/-- Close the single newest open entry for the host, if any. -/
def closeNewestOpen (log : List LogEntry) (hid st : String) (out : Option String)
    (now : Nat) : List LogEntry :=
  match newestOpenIdx log hid with
  | none => log
  | some q =>
      List.modify (fun e => { e with status := st, output := out, completed_at := some now })
        q.1 log

/-- `update_status` after authentication: merge the report into the host row
by null-coalescing, stamp `last_switch` on ok/success, then close the newest
open log entry. -/
def updateStatus (db : AppDb) (hid : String) (st : StatusReport) (now : Nat) : AppDb :=
  let db1 := updateHosts db hid fun h =>
    { h with
      status := some st.status,
      current_generation := coalesce st.current_generation h.current_generation,
      last_seen := some now,
      test_status := coalesce st.test_status h.test_status,
      comment := coalesce (commentOf st) h.comment,
      last_switch :=
        if st.status == "ok" || st.status == "success" then some now else h.last_switch }
  { db1 with log := closeNewestOpen db1.log hid st.status st.output now }

/-- The staleness sweep inside the `dashboard` handler: any host whose
truthy pending command was queued more than five minutes ago is cleared to
idle (mailbox null, test_running 0); the command log is not touched. -/
def dashboardStaleSweep (db : AppDb) (now : Nat) : AppDb :=
  { db with
    hosts := db.hosts.map fun h =>
      if truthyS h.pending_command && h.command_queued_at.isSome
          && decide (300 < now - h.command_queued_at.getD 0) then
        { h with pending_command := none, test_running := false }
      else h }

/-- `datetime.utcnow() - last_seen < timedelta(minutes=5)`. -/
def hostOnline (h : Host) (now : Nat) : Bool :=
  match h.last_seen with
  | some t => now - t < 300
  | none => false

/-- Insertion into a hostname-sorted list. -/
def insertByHostname (h : Host) : List Host → List Host
  | [] => [h]
  | x :: xs =>
      if charListLe h.hostname.toList x.hostname.toList then h :: x :: xs
      else x :: insertByHostname h xs

/-- `ORDER BY hostname`. -/
def sortByHostname (l : List Host) : List Host := l.foldr insertByHostname []

/-- `list_hosts` (`GET /api/hosts`) after session auth: all rows ordered by
hostname, each with its computed `online` flag; the store is not mutated. -/
def listHosts (db : AppDb) (now : Nat) : List (Host × Bool) :=
  (sortByHostname db.hosts).map fun h => (h, hostOnline h now)

/-- Number of open (`completed_at IS NULL`) log entries for a host. -/
def countOpenFor (log : List LogEntry) (hid : String) : Nat :=
  (log.filter fun e => e.host_id == hid && e.completed_at.isNone).length

/-! ### Agent authentication -/

/-- Result of `verify_agent_auth_for_host`. -/
structure AuthResult where
  ok : Bool
  used_shared : Bool
  deriving Repr, DecidableEq

/-- `verify_agent_token_hash`: false on empty stored hash or token, false
when `NIXFLEET_AGENT_TOKEN_HASH_SECRET` is unconfigured (the RuntimeError
branch), else constant-time equality of the stored hash with the keyed hash
of the token. -/
def verify_agent_token_hash (cfg : Config) (hashTok : String → String → String)
    (stored token : String) : Bool :=
  if stored == "" || token == "" then false
  else if cfg.agentHashSecret == "" then false
  else stored == hashTok cfg.agentHashSecret token

/-- `verify_agent_auth_for_host`: empty bearer token fails; with a truthy
stored per-host hash, the keyed hash is tried first, then the shared token
if allowed and configured; without one, only the shared token path applies. -/
def verify_agent_auth_for_host (cfg : Config) (hashTok : String → String → String)
    (db : AppDb) (hid : String) (token : String) : AuthResult :=
  if token == "" then { ok := false, used_shared := false }
  else
    let stored := (findHost db hid).bind (·.agent_token_hash)
    if truthyS stored then
      if verify_agent_token_hash cfg hashTok (stored.getD "") token then
        { ok := true, used_shared := false }
      else if cfg.allowShared && cfg.apiToken != "" && token == cfg.apiToken then
        { ok := true, used_shared := true }
      else { ok := false, used_shared := false }
    else if cfg.allowShared && cfg.apiToken != "" && token == cfg.apiToken then
      { ok := true, used_shared := true }
    else { ok := false, used_shared := false }

/-! ### Sessions -/

/-- `SELECT ... FROM sessions WHERE token = ?`. -/
def findSession (sdb : List Session) (token : String) : Option Session :=
  sdb.find? (·.token == token)

/-- `DELETE FROM sessions WHERE token = ?`. -/
def deleteSession (sdb : List Session) (token : String) : List Session :=
  sdb.filter fun s => !(s.token == token)

/-- `verify_session`: missing row fails; an expired row is deleted and fails
(lazy expiry); otherwise succeed.  Returns the verdict and the store after
the call. -/
def verifySession (sdb : List Session) (now : Nat) (token : String) :
    Bool × List Session :=
  match findSession sdb token with
  | none => (false, sdb)
  | some s =>
      if s.expires_at < now then (false, deleteSession sdb token)
      else (true, sdb)

/-! ### Part 3: SSE broadcaster -/

/-- A connected SSE client: its queue of framed messages (oldest first).
`asyncio.Queue(maxsize=100)` is full when 100 messages are waiting. -/
structure Subscriber where
  id : Nat
  queue : List String
  deriving Repr, DecidableEq

/-- The `maxsize` of each client queue. -/
def sseQueueMax : Nat := 100

/-- `broadcast_event` body: return immediately when there are no clients,
else try a non-blocking put to every snapshot member; a full queue drops the
message for that client only and bumps the `sse_queue_drops` metric. -/
def broadcastEvent (subs : List Subscriber) (drops : Nat) (msg : String) :
    List Subscriber × Nat :=
  if subs.isEmpty then (subs, drops)
  else
    (subs.map fun q =>
        if q.queue.length < sseQueueMax then { q with queue := q.queue ++ [msg] } else q,
     drops + (subs.filter fun q => !(q.queue.length < sseQueueMax)).length)

/-! ### Store lemmas -/

theorem find_map_update {α : Type} (p : α → Bool) (f : α → α)
    (hp : ∀ a, p (f a) = p a) (l : List α) :
    (l.map fun a => if p a then f a else a).find? p = (l.find? p).map f := by
  induction l with
  | nil => rfl
  | cons x t ih =>
      cases hx : p x with
      | true => simp [List.find?_cons, hx, hp, ih]
      | false => simp [List.find?_cons, hx, hp, ih]

theorem findHost_updateHosts (db : AppDb) (hid : String) (f : Host → Host)
    (hf : ∀ h, (f h).id = h.id) :
    findHost (updateHosts db hid f) hid = (findHost db hid).map f := by
  unfold findHost updateHosts
  exact find_map_update (·.id == hid) f (fun a => by simp only [hf a]) db.hosts

theorem hostExists_eq_isSome (db : AppDb) (hid : String) :
    hostExists db hid = (findHost db hid).isSome := by
  unfold hostExists findHost
  induction db.hosts with
  | nil => rfl
  | cons x t ih => by_cases hx : x.id == hid <;> simp [List.find?_cons, hx, ih]

theorem updateHosts_log (db : AppDb) (hid : String) (f : Host → Host) :
    (updateHosts db hid f).log = db.log := rfl

theorem appendLog_hosts (db : AppDb) (e : LogEntry) :
    (appendLog db e).hosts = db.hosts := rfl

theorem pollTouch_find (db : AppDb) (hid : String) (now : Nat) (h : Host)
    (hfind : findHost db hid = some h) :
    findHost (pollTouch db hid now) hid = some { h with last_seen := some now }
      ∧ (pollTouch db hid now).log = db.log := by
  have hex : hostExists db hid = true := by rw [hostExists_eq_isSome, hfind]; rfl
  constructor
  · rw [pollTouch, if_pos hex,
      findHost_updateHosts db hid (fun hh => { hh with last_seen := some now })
        (fun hh => rfl), hfind]
    rfl
  · rw [pollTouch, if_pos hex]
    rfl

theorem pollTouch_of_absent (db : AppDb) (hid : String) (now : Nat)
    (hfind : findHost db hid = none) :
    pollTouch db hid now = { db with hosts := db.hosts ++ [defaultPollHost hid now] }
      ∧ findHost (pollTouch db hid now) hid = some (defaultPollHost hid now) := by
  have hex : hostExists db hid = false := by rw [hostExists_eq_isSome, hfind]; rfl
  have h1 : pollTouch db hid now = { db with hosts := db.hosts ++ [defaultPollHost hid now] } := by
    rw [pollTouch, if_neg (by simp [hex])]
  refine ⟨h1, ?_⟩
  rw [h1]
  unfold findHost at hfind ⊢
  simp only [List.find?_append, hfind]
  simp [defaultPollHost]

theorem pollProvision_find (cfg : Config) (hashTok : String → String → String)
    (freshTok : String) (db1 : AppDb) (hid : String) (h1 : Host)
    (hfind : findHost db1 hid = some h1) :
    (pollProvision cfg hashTok freshTok db1 hid).1.log = db1.log
      ∧ ∃ h2, findHost (pollProvision cfg hashTok freshTok db1 hid).1 hid = some h2
          ∧ (h2 = h1
            ∨ h2 = { h1 with
                agent_token_hash := some (hashTok cfg.agentHashSecret freshTok) }) := by
  rw [pollProvision]
  split
  · refine ⟨rfl, ?_⟩
    refine ⟨_, ?_, Or.inr rfl⟩
    rw [show (updateHosts db1 hid fun h =>
          { h with agent_token_hash := some (hashTok cfg.agentHashSecret freshTok) },
          some freshTok).1
        = updateHosts db1 hid (fun h =>
          { h with agent_token_hash := some (hashTok cfg.agentHashSecret freshTok) })
        from rfl]
    rw [findHost_updateHosts db1 hid (fun h =>
        { h with agent_token_hash := some (hashTok cfg.agentHashSecret freshTok) })
      (fun hh => rfl), hfind]
    rfl
  · exact ⟨rfl, h1, hfind, Or.inl rfl⟩

theorem pollDeliver_delivers (db2 : AppDb) (hid : String) (now : Nat)
    (tok : Option String) (h2 : Host) (c : String)
    (hfind : findHost db2 hid = some h2) (hpend : h2.pending_command = some c)
    (hc : c ≠ "") :
    pollDeliver db2 hid now tok =
      (appendLog (updateHosts db2 hid fun h' => { h' with pending_command := none })
        { host_id := hid, command := c, status := "running", output := none,
          created_at := now, completed_at := none },
       { command := some c, agent_token := tok }) := by
  rw [pollDeliver, hfind]
  simp only [Option.some_bind, hpend]
  rw [if_pos (by simpa using hc)]

theorem pollDeliver_idle (db2 : AppDb) (hid : String) (now : Nat)
    (tok : Option String)
    (hpend : ((findHost db2 hid).bind (·.pending_command)).getD "" = "") :
    pollDeliver db2 hid now tok = (db2, { command := none, agent_token := tok }) := by
  rw [pollDeliver]
  cases hp : (findHost db2 hid).bind (·.pending_command) with
  | none => rfl
  | some c =>
      rw [hp] at hpend
      simp only [Option.getD_some] at hpend
      simp [hpend]

/-- Shorthand for the `running` log entry a delivering poll appends. -/
def runningEntry (hid c : String) (now : Nat) : LogEntry :=
  { host_id := hid, command := c, status := "running", output := none,
    created_at := now, completed_at := none }

/-- **C2**: a host whose mailbox holds a truthy pending command receives it
from an authenticated poll exactly once — the poll returns the command,
clears the mailbox, appends one open `running` log entry, and an immediately
following poll (nothing newly queued) returns a null command. -/
theorem c2_poll_delivers_exactly_once (cfg : Config)
    (hashTok : String → String → String) (freshTok freshTok' : String)
    (db : AppDb) (hid : String) (now now' : Nat) (h : Host) (c : String)
    (hfind : findHost db hid = some h)
    (hpend : h.pending_command = some c) (hc : c ≠ "") :
    (pollCommands cfg hashTok freshTok db hid now).2.command = some c
    ∧ (∃ h', findHost (pollCommands cfg hashTok freshTok db hid now).1 hid = some h'
        ∧ h'.pending_command = none)
    ∧ (pollCommands cfg hashTok freshTok db hid now).1.log
        = db.log ++ [runningEntry hid c now]
    ∧ (pollCommands cfg hashTok freshTok'
        (pollCommands cfg hashTok freshTok db hid now).1 hid now').2.command = none := by
  obtain ⟨hf1, hlog1⟩ := pollTouch_find db hid now h hfind
  obtain ⟨hlog2, h2, hf2, hcase⟩ :=
    pollProvision_find cfg hashTok freshTok (pollTouch db hid now) hid _ hf1
  have hpend2 : h2.pending_command = some c := by
    rcases hcase with rfl | rfl <;> exact hpend
  have hdel := pollDeliver_delivers _ hid now
    (pollProvision cfg hashTok freshTok (pollTouch db hid now) hid).2 h2 c hf2 hpend2 hc
  have hrun : pollCommands cfg hashTok freshTok db hid now
      = (appendLog (updateHosts (pollProvision cfg hashTok freshTok
            (pollTouch db hid now) hid).1 hid fun h' => { h' with pending_command := none })
          (runningEntry hid c now),
         { command := some c,
           agent_token := (pollProvision cfg hashTok freshTok (pollTouch db hid now) hid).2 }) := by
    simp only [pollCommands]
    exact hdel
  have hfr : findHost (pollCommands cfg hashTok freshTok db hid now).1 hid
      = some { h2 with pending_command := none } := by
    rw [hrun]
    show findHost (updateHosts _ hid fun h' => { h' with pending_command := none }) hid = _
    rw [findHost_updateHosts _ hid (fun h' => { h' with pending_command := none })
      (fun hh => rfl), hf2]
    rfl
  refine ⟨by rw [hrun], ⟨_, hfr, rfl⟩, ?_, ?_⟩
  · rw [hrun]
    show (updateHosts _ hid _).log ++ [runningEntry hid c now] = _
    rw [updateHosts_log, hlog2, hlog1]
  · obtain ⟨hf1', hlog1'⟩ := pollTouch_find _ hid now' _ hfr
    obtain ⟨hlog2', h4, hf4, hcase'⟩ :=
      pollProvision_find cfg hashTok freshTok' (pollTouch _ hid now') hid _ hf1'
    have hpend4 : h4.pending_command = none := by
      rcases hcase' with rfl | rfl <;> rfl
    have hid4 := pollDeliver_idle _ hid now'
      (pollProvision cfg hashTok freshTok' (pollTouch
        (pollCommands cfg hashTok freshTok db hid now).1 hid now') hid).2
      (by rw [hf4]; simp [hpend4])
    show (pollDeliver
        (pollProvision cfg hashTok freshTok' (pollTouch
          (pollCommands cfg hashTok freshTok db hid now).1 hid now') hid).1 hid now'
        (pollProvision cfg hashTok freshTok' (pollTouch
          (pollCommands cfg hashTok freshTok db hid now).1 hid now') hid).2).2.command = none
    rw [hid4]

/-- Sample configuration for witnesses: shared token mode on, no
auto-provisioning. -/
def cfg0 : Config :=
  { allowShared := true, autoProvision := false, apiToken := "shared",
    agentHashSecret := "" }

/-- Sample keyed-hash model for witnesses. -/
def hashTok0 : String → String → String := fun _ _ => "HH"

/-- Sample host row with a queued `pull` command. -/
def host0 : Host :=
  { defaultPollHost "node-1" 0 with
    pending_command := some "pull", command_queued_at := some 10 }

/-- Sample store holding `host0` and an empty command log. -/
def db0 : AppDb := { hosts := [host0], log := [] }

/-- Witness for C2: queue `pull` for `node-1`, poll at time 10, poll again
at time 20. -/
theorem c2_poll_delivers_exactly_once_witness :
    (findHost db0 "node-1" = some host0 ∧ host0.pending_command = some "pull"
      ∧ ("pull" : String) ≠ "")
    ∧ ((pollCommands cfg0 hashTok0 "F" db0 "node-1" 10).2.command = some "pull"
      ∧ (∃ h', findHost (pollCommands cfg0 hashTok0 "F" db0 "node-1" 10).1 "node-1" = some h'
          ∧ h'.pending_command = none)
      ∧ (pollCommands cfg0 hashTok0 "F" db0 "node-1" 10).1.log
          = db0.log ++ [runningEntry "node-1" "pull" 10]
      ∧ (pollCommands cfg0 hashTok0 "F2"
          (pollCommands cfg0 hashTok0 "F" db0 "node-1" 10).1 "node-1" 20).2.command = none) :=
  ⟨⟨by decide, by decide, by decide⟩,
    c2_poll_delivers_exactly_once cfg0 hashTok0 "F" "F2" db0 "node-1" 10 20 host0 "pull"
      (by decide) (by decide) (by decide)⟩

/-- **C10**: an authenticated poll for an unknown host does not fail: the
host is auto-registered with the default attributes (`hostname = id`,
`host_type = 'nixos'`, `location = 'home'`, `device_type = 'server'`,
`criticality = 'low'`, `status = 'ok'`, `poll_interval = 30`,
`last_seen = now`) and the poll is answered normally with a null command. -/
theorem c10_poll_auto_registers (cfg : Config)
    (hashTok : String → String → String) (freshTok : String)
    (db : AppDb) (hid : String) (now : Nat)
    (hfind : findHost db hid = none) :
    (∃ h', findHost (pollCommands cfg hashTok freshTok db hid now).1 hid = some h'
      ∧ h'.hostname = hid ∧ h'.host_type = "nixos" ∧ h'.location = some "home"
      ∧ h'.device_type = some "server" ∧ h'.criticality = some "low"
      ∧ h'.status = some "ok" ∧ h'.poll_interval = 30 ∧ h'.last_seen = some now)
    ∧ (pollCommands cfg hashTok freshTok db hid now).2.command = none := by
  obtain ⟨_heq, hf1⟩ := pollTouch_of_absent db hid now hfind
  obtain ⟨_hlog2, h2, hf2, hcase⟩ :=
    pollProvision_find cfg hashTok freshTok (pollTouch db hid now) hid _ hf1
  have hpend2 : h2.pending_command = none := by
    rcases hcase with rfl | rfl <;> rfl
  have hidle := pollDeliver_idle
    (pollProvision cfg hashTok freshTok (pollTouch db hid now) hid).1 hid now
    (pollProvision cfg hashTok freshTok (pollTouch db hid now) hid).2
    (by rw [hf2]; simp [hpend2])
  have hres : pollCommands cfg hashTok freshTok db hid now
      = ((pollProvision cfg hashTok freshTok (pollTouch db hid now) hid).1,
         { command := none,
           agent_token := (pollProvision cfg hashTok freshTok (pollTouch db hid now) hid).2 }) := by
    simp only [pollCommands]
    exact hidle
  constructor
  · refine ⟨h2, by rw [hres]; exact hf2, ?_⟩
    rcases hcase with rfl | rfl <;>
      exact ⟨rfl, rfl, rfl, rfl, rfl, rfl, rfl, rfl⟩
  · rw [hres]

/-- Witness for C10: polling for the unknown host `fresh-1` at time 5. -/
theorem c10_poll_auto_registers_witness :
    findHost db0 "fresh-1" = none
    ∧ ((∃ h', findHost (pollCommands cfg0 hashTok0 "F" db0 "fresh-1" 5).1 "fresh-1" = some h'
        ∧ h'.hostname = "fresh-1" ∧ h'.host_type = "nixos" ∧ h'.location = some "home"
        ∧ h'.device_type = some "server" ∧ h'.criticality = some "low"
        ∧ h'.status = some "ok" ∧ h'.poll_interval = 30 ∧ h'.last_seen = some 5)
      ∧ (pollCommands cfg0 hashTok0 "F" db0 "fresh-1" 5).2.command = none) :=
  ⟨by decide, c10_poll_auto_registers cfg0 hashTok0 "F" db0 "fresh-1" 5 (by decide)⟩

/-- **C4**: queueing `stop` for an existing host clears the mailbox and the
test-running flag from any prior state (it also resets status to `ok`), and
never appends a command-log entry. -/
theorem c4_stop_clears_without_logging (db : AppDb) (hid : String) (now : Nat)
    (hex : hostExists db hid = true) :
    ∃ db', queueCommand db hid "stop" now = some db'
      ∧ (∀ h' ∈ db'.hosts, h'.id = hid →
            h'.pending_command = none ∧ h'.test_running = false)
      ∧ db'.log = db.log := by
  refine ⟨updateHosts db hid (fun h =>
      { h with pending_command := none, test_running := false, status := some "ok" }),
    ?_, ?_, rfl⟩
  · rw [queueCommand, if_pos hex, if_pos (by decide)]
  · intro h' hmem hid'
    rcases List.mem_map.mp hmem with ⟨x, _hx, hcond⟩
    by_cases hx : (x.id == hid) = true
    · rw [if_pos hx] at hcond
      rw [← hcond]
      exact ⟨rfl, rfl⟩
    · rw [if_neg (by simpa using hx)] at hcond
      subst hcond
      exact absurd hid' (by simpa using hx)

/-- Witness for C4: stopping `node-1` while `pull` is queued and a test is
running. -/
theorem c4_stop_clears_without_logging_witness :
    hostExists { hosts := [{ host0 with test_running := true }], log := [] } "node-1" = true
    ∧ ∃ db', queueCommand { hosts := [{ host0 with test_running := true }], log := [] }
          "node-1" "stop" 42 = some db'
        ∧ (∀ h' ∈ db'.hosts, h'.id = "node-1" →
              h'.pending_command = none ∧ h'.test_running = false)
        ∧ db'.log = ({ hosts := [{ host0 with test_running := true }], log := [] } : AppDb).log :=
  ⟨by decide,
    c4_stop_clears_without_logging
      { hosts := [{ host0 with test_running := true }], log := [] } "node-1" 42 (by decide)⟩

/-! ### Open log entries -/

theorem pollTouch_log (db : AppDb) (hid : String) (now : Nat) :
    (pollTouch db hid now).log = db.log := by
  unfold pollTouch; split <;> rfl

theorem pollProvision_log (cfg : Config) (hashTok : String → String → String)
    (freshTok : String) (db1 : AppDb) (hid : String) :
    (pollProvision cfg hashTok freshTok db1 hid).1.log = db1.log := by
  unfold pollProvision; split <;> rfl

/-- A single poll appends at most one log entry. -/
theorem pollDeliver_log (db2 : AppDb) (hid : String) (now : Nat)
    (tok : Option String) :
    ∃ l, (pollDeliver db2 hid now tok).1.log = db2.log ++ l ∧ l.length ≤ 1 := by
  unfold pollDeliver
  split
  · split
    · exact ⟨[runningEntry hid _ now], rfl, by simp⟩
    · exact ⟨[], by simp, by simp⟩
  · exact ⟨[], by simp, by simp⟩

theorem countOpenFor_append (a b : List LogEntry) (hid : String) :
    countOpenFor (a ++ b) hid = countOpenFor a hid + countOpenFor b hid := by
  unfold countOpenFor
  rw [List.filter_append, List.length_append]

theorem countOpenFor_le_length (l : List LogEntry) (hid : String) :
    countOpenFor l hid ≤ l.length := by
  unfold countOpenFor
  exact List.length_filter_le _ l

theorem countOpenFor_cons (e : LogEntry) (l : List LogEntry) (hid : String) :
    countOpenFor (e :: l) hid
      = (if (e.host_id == hid && e.completed_at.isNone) = true then 1 else 0)
        + countOpenFor l hid := by
  unfold countOpenFor
  rw [List.filter_cons]
  by_cases h : (e.host_id == hid && e.completed_at.isNone) = true
  · rw [if_pos h, if_pos h, List.length_cons]
    omega
  · rw [if_neg h, if_neg h]
    omega

theorem modify_zero {α : Type} (f : α → α) (e : α) (t : List α) :
    List.modify f 0 (e :: t) = f e :: t := by
  simp [List.modify]

theorem modify_succ {α : Type} (f : α → α) (e : α) (t : List α) (m : Nat) :
    List.modify f (m + 1) (e :: t) = e :: List.modify f m t := by
  simp [List.modify]

theorem modify_nil {α : Type} (f : α → α) (n : Nat) : List.modify f n [] = [] := by
  cases n <;> simp [List.modify]

/-- Closing an entry (setting `completed_at`) at one index removes at most
one open entry and adds none. -/
theorem countOpenFor_modify_close (st : String) (out : Option String) (now : Nat)
    (hid' : String) :
    ∀ (l : List LogEntry) (n : Nat),
      countOpenFor (List.modify
          (fun e => { e with status := st, output := out, completed_at := some now }) n l) hid'
        ≤ countOpenFor l hid'
      ∧ countOpenFor l hid'
        ≤ countOpenFor (List.modify
            (fun e => { e with status := st, output := out, completed_at := some now }) n l) hid'
          + 1 := by
  intro l
  induction l with
  | nil =>
      intro n
      rw [modify_nil]
      exact ⟨Nat.le_refl _, Nat.le_succ _⟩
  | cons e t ih =>
      intro n
      cases n with
      | zero =>
          rw [modify_zero]
          rw [countOpenFor_cons, countOpenFor_cons]
          have hclosed :
              (({ e with
                    status := st, output := out, completed_at := some now } : LogEntry).host_id
                  == hid'
                && ({ e with
                      status := st, output := out,
                      completed_at := some now } : LogEntry).completed_at.isNone) = false := by
            simp
          rw [hclosed]
          simp only [Bool.false_eq_true, if_false, Nat.zero_add]
          constructor <;> split <;> omega
      | succ m =>
          rw [modify_succ]
          rw [countOpenFor_cons, countOpenFor_cons]
          have := ih m
          omega

theorem queueCommand_log_unchanged (db : AppDb) (hid cmd : String) (now : Nat)
    (db' : AppDb) (h : queueCommand db hid cmd now = some db') : db'.log = db.log := by
  rw [queueCommand] at h
  by_cases hex : hostExists db hid = true
  · rw [if_pos hex] at h
    have h2 := Option.some.inj h
    rw [← h2]
    split
    · rfl
    · split <;> rfl
  · rw [if_neg hex] at h
    exact absurd h (by simp)

theorem updateStatus_log (db : AppDb) (hid : String) (st : StatusReport) (now : Nat) :
    (updateStatus db hid st now).log
      = closeNewestOpen db.log hid st.status st.output now := rfl

/-- **C3** (amended).  The at-most-one-open-entry invariant does NOT hold
for all reachable command logs (see the counterexample: queue, poll, queue,
poll with no status report leaves two open entries).  What the operations do
guarantee: a poll appends at most one open entry, a status report closes at
most one (the single newest) open entry and never opens one, and queueing a
command never touches the log. -/
theorem c3_open_entries_bounded_per_operation :
    (∀ cfg hashTok freshTok db hid now hid',
        countOpenFor (pollCommands cfg hashTok freshTok db hid now).1.log hid'
          ≤ countOpenFor db.log hid' + 1)
    ∧ (∀ db hid st now hid',
        countOpenFor (updateStatus db hid st now).log hid' ≤ countOpenFor db.log hid'
        ∧ countOpenFor db.log hid'
            ≤ countOpenFor (updateStatus db hid st now).log hid' + 1)
    ∧ (∀ db hid cmd now db', queueCommand db hid cmd now = some db' → db'.log = db.log) := by
  refine ⟨?_, ?_, ?_⟩
  · intro cfg hashTok freshTok db hid now hid'
    obtain ⟨l, hl, hlen⟩ := pollDeliver_log
      (pollProvision cfg hashTok freshTok (pollTouch db hid now) hid).1 hid now
      (pollProvision cfg hashTok freshTok (pollTouch db hid now) hid).2
    have hres : (pollCommands cfg hashTok freshTok db hid now).1.log = db.log ++ l := by
      show (pollDeliver (pollProvision cfg hashTok freshTok (pollTouch db hid now) hid).1
          hid now (pollProvision cfg hashTok freshTok (pollTouch db hid now) hid).2).1.log
        = db.log ++ l
      rw [hl, pollProvision_log, pollTouch_log]
    rw [hres, countOpenFor_append]
    have := countOpenFor_le_length l hid'
    omega
  · intro db hid st now hid'
    rw [updateStatus_log]
    unfold closeNewestOpen
    cases hq : newestOpenIdx db.log hid with
    | none => exact ⟨Nat.le_refl _, Nat.le_succ _⟩
    | some q => exact countOpenFor_modify_close st.status st.output now hid' db.log q.1
  · intro db hid cmd now db' h
    exact queueCommand_log_unchanged db hid cmd now db' h

/-- Witness for C3 (amended): the per-operation bounds at a concrete store. -/
theorem c3_open_entries_bounded_per_operation_witness :
    (countOpenFor (pollCommands cfg0 hashTok0 "F" db0 "node-1" 10).1.log "node-1"
        ≤ countOpenFor db0.log "node-1" + 1)
    ∧ countOpenFor (updateStatus db0 "node-1"
        { status := "ok", current_generation := none, output := none,
          test_status := none, comment := none } 6).log "node-1"
      ≤ countOpenFor db0.log "node-1" :=
  ⟨c3_open_entries_bounded_per_operation.1 cfg0 hashTok0 "F" db0 "node-1" 10 "node-1",
    (c3_open_entries_bounded_per_operation.2.1 db0 "node-1"
      { status := "ok", current_generation := none, output := none,
        test_status := none, comment := none } 6 "node-1").1⟩

/-- Counterexample to C3 as stated: starting from an empty store, the
operation sequence poll (auto-registers `h`), queue `pull`, poll, queue
`pull`, poll — with no status report in between — reaches a command log
with TWO open entries for `h`, so "at most one open entry per host" is not
an invariant of the reachable states. -/
theorem c3_two_open_entries_reachable :
    ((queueCommand (pollCommands cfg0 hashTok0 "F" { hosts := [], log := [] } "h" 0).1
        "h" "pull" 1).bind fun d1 =>
      (queueCommand (pollCommands cfg0 hashTok0 "F" d1 "h" 2).1 "h" "pull" 3).map fun d3 =>
        countOpenFor (pollCommands cfg0 hashTok0 "F" d3 "h" 4).1.log "h")
      = some 2 := by decide

/-! ### Staleness -/

theorem mem_insertByHostname (h x : Host) (l : List Host) :
    x ∈ insertByHostname h l ↔ x = h ∨ x ∈ l := by
  induction l with
  | nil => simp [insertByHostname]
  | cons y t ih =>
      unfold insertByHostname
      split
      · simp
      · simp only [List.mem_cons, ih]
        tauto

theorem mem_sortByHostname (x : Host) (l : List Host) :
    x ∈ sortByHostname l ↔ x ∈ l := by
  induction l with
  | nil => simp [sortByHostname]
  | cons y t ih =>
      show x ∈ insertByHostname y (sortByHostname t) ↔ _
      rw [mem_insertByHostname]
      simp [ih]

/-- The dashboard sweep clears a stale host's mailbox and test flag,
leaving the command log untouched. -/
theorem dashboardStaleSweep_clears (db : AppDb) (now : Nat) (hid : String)
    (h : Host) (c : String) (t : Nat)
    (hfind : findHost db hid = some h) (hpend : h.pending_command = some c)
    (hc : c ≠ "") (hqa : h.command_queued_at = some t) (hstale : 300 < now - t) :
    findHost (dashboardStaleSweep db now) hid
      = some { h with pending_command := none, test_running := false }
    ∧ (dashboardStaleSweep db now).log = db.log := by
  constructor
  · show (db.hosts.map (fun a => if truthyS a.pending_command && a.command_queued_at.isSome
        && decide (300 < now - a.command_queued_at.getD 0) then
        { a with pending_command := none, test_running := false } else a)).find?
        (·.id == hid) = _
    rw [List.find?_map]
    have hpred : ((fun x : Host => x.id == hid) ∘ fun a : Host =>
        if truthyS a.pending_command && a.command_queued_at.isSome
            && decide (300 < now - a.command_queued_at.getD 0) then
          { a with pending_command := none, test_running := false } else a)
        = fun a : Host => a.id == hid := by
      funext a
      simp only [Function.comp_apply]
      split <;> rfl
    rw [hpred]
    have hfind' : db.hosts.find? (fun a : Host => a.id == hid) = some h := hfind
    rw [hfind']
    have hcond : (truthyS h.pending_command && h.command_queued_at.isSome
        && decide (300 < now - h.command_queued_at.getD 0)) = true := by
      rw [hpend, hqa]
      simp [truthyS, hc, hstale]
    simp only [Option.map_some']
    rw [show (if truthyS h.pending_command && h.command_queued_at.isSome
          && decide (300 < now - h.command_queued_at.getD 0) then
          { h with pending_command := none, test_running := false } else h)
        = { h with pending_command := none, test_running := false }
      from by rw [hcond]; rfl]
  · rfl

/-- **C5** (amended).  Only the dashboard page read force-clears a stale
queued mailbox (pending command to null, test_running to false, no log
entry marked failed).  An agent poll performs no staleness check and still
delivers the stale command, and the host-list API still reports it: the
original claim that after the window "no read operation still delivers or
reports the stale command" is false (see the counterexample). -/
theorem c5_staleness_cleared_only_by_dashboard (cfg : Config)
    (hashTok : String → String → String) (freshTok : String)
    (db : AppDb) (hid : String) (now : Nat) (h : Host) (c : String) (t : Nat)
    (hfind : findHost db hid = some h) (hpend : h.pending_command = some c)
    (hc : c ≠ "") (hqa : h.command_queued_at = some t) (hstale : 300 < now - t) :
    (findHost (dashboardStaleSweep db now) hid
        = some { h with pending_command := none, test_running := false }
      ∧ (dashboardStaleSweep db now).log = db.log)
    ∧ (pollCommands cfg hashTok freshTok db hid now).2.command = some c
    ∧ ∃ p ∈ listHosts db now, p.1 = h ∧ p.1.pending_command = some c := by
  refine ⟨dashboardStaleSweep_clears db now hid h c t hfind hpend hc hqa hstale, ?_, ?_⟩
  · obtain ⟨hf1, _⟩ := pollTouch_find db hid now h hfind
    obtain ⟨_, h2, hf2, hcase⟩ :=
      pollProvision_find cfg hashTok freshTok (pollTouch db hid now) hid _ hf1
    have hpend2 : h2.pending_command = some c := by
      rcases hcase with rfl | rfl <;> exact hpend
    have hdel := pollDeliver_delivers _ hid now
      (pollProvision cfg hashTok freshTok (pollTouch db hid now) hid).2 h2 c hf2 hpend2 hc
    show (pollDeliver (pollProvision cfg hashTok freshTok (pollTouch db hid now) hid).1
        hid now (pollProvision cfg hashTok freshTok (pollTouch db hid now) hid).2).2.command
      = some c
    rw [hdel]
  · have hmem : h ∈ db.hosts := List.mem_of_find?_eq_some hfind
    refine ⟨(h, hostOnline h now), ?_, rfl, hpend⟩
    unfold listHosts
    exact List.mem_map.mpr ⟨h, (mem_sortByHostname h db.hosts).mpr hmem, rfl⟩

/-- Witness for C5 (amended): `node-1` queued `pull` at time 10, read at
time 1000. -/
theorem c5_staleness_cleared_only_by_dashboard_witness :
    (findHost db0 "node-1" = some host0 ∧ host0.pending_command = some "pull"
      ∧ ("pull" : String) ≠ "" ∧ host0.command_queued_at = some 10
      ∧ 300 < 1000 - 10)
    ∧ ((findHost (dashboardStaleSweep db0 1000) "node-1"
          = some { host0 with pending_command := none, test_running := false }
        ∧ (dashboardStaleSweep db0 1000).log = db0.log)
      ∧ (pollCommands cfg0 hashTok0 "F" db0 "node-1" 1000).2.command = some "pull"
      ∧ ∃ p ∈ listHosts db0 1000, p.1 = host0 ∧ p.1.pending_command = some "pull") :=
  ⟨⟨by decide, by decide, by decide, by decide, by decide⟩,
    c5_staleness_cleared_only_by_dashboard cfg0 hashTok0 "F" db0 "node-1" 1000 host0
      "pull" 10 (by decide) (by decide) (by decide) (by decide) (by decide)⟩

/-- Counterexample to C5 as stated: at time 1000, `node-1`'s `pull` command
queued at time 10 is long past the five-minute window, yet an agent poll (a
read of the host's state) still delivers it. -/
theorem c5_poll_still_delivers_stale_command :
    300 < 1000 - 10
    ∧ host0.command_queued_at = some 10
    ∧ (pollCommands cfg0 hashTok0 "F" db0 "node-1" 1000).2.command = some "pull" := by
  refine ⟨by decide, by decide, by decide⟩

/-! ### Agent authentication cases -/

/-- **C6**: `verify_agent_auth_for_host` behaves exactly as specified: an
empty token always fails; with a (truthy) stored per-host hash, a keyed-hash
match succeeds without the shared flag, otherwise the shared token path is
tried (enabled ∧ configured ∧ equal ⇒ ok with `used_shared`), else failure;
without a stored hash only the shared path can succeed. -/
theorem c6_verify_agent_auth_cases (cfg : Config) (hashTok : String → String → String)
    (db : AppDb) (hid token : String) :
    (token = "" → verify_agent_auth_for_host cfg hashTok db hid token
        = { ok := false, used_shared := false })
    ∧ (∀ s, token ≠ "" → (findHost db hid).bind (·.agent_token_hash) = some s → s ≠ "" →
        ((cfg.agentHashSecret ≠ "" ∧ hashTok cfg.agentHashSecret token = s →
            verify_agent_auth_for_host cfg hashTok db hid token
              = { ok := true, used_shared := false })
          ∧ (¬(cfg.agentHashSecret ≠ "" ∧ hashTok cfg.agentHashSecret token = s) →
              (cfg.allowShared = true ∧ cfg.apiToken ≠ "" ∧ token = cfg.apiToken →
                verify_agent_auth_for_host cfg hashTok db hid token
                  = { ok := true, used_shared := true })
              ∧ (¬(cfg.allowShared = true ∧ cfg.apiToken ≠ "" ∧ token = cfg.apiToken) →
                verify_agent_auth_for_host cfg hashTok db hid token
                  = { ok := false, used_shared := false }))))
    ∧ (token ≠ "" → truthyS ((findHost db hid).bind (·.agent_token_hash)) = false →
        ((cfg.allowShared = true ∧ cfg.apiToken ≠ "" ∧ token = cfg.apiToken →
            verify_agent_auth_for_host cfg hashTok db hid token
              = { ok := true, used_shared := true })
          ∧ (¬(cfg.allowShared = true ∧ cfg.apiToken ≠ "" ∧ token = cfg.apiToken) →
            verify_agent_auth_for_host cfg hashTok db hid token
              = { ok := false, used_shared := false }))) := by
  refine ⟨?_, ?_, ?_⟩
  · intro ht
    simp only [verify_agent_auth_for_host]
    rw [if_pos (by simp [ht])]
  · intro s ht hstored hs
    have hsb : truthyS ((findHost db hid).bind (·.agent_token_hash)) = true := by
      rw [hstored]; simp [truthyS, hs]
    constructor
    · rintro ⟨hsec, hmatch⟩
      have hv : verify_agent_token_hash cfg hashTok
          (((findHost db hid).bind (·.agent_token_hash)).getD "") token = true := by
        rw [hstored]
        simp only [Option.getD_some]
        unfold verify_agent_token_hash
        rw [if_neg (by simp [hs, ht]), if_neg (by simp [hsec]), hmatch]
        simp
      simp only [verify_agent_auth_for_host]
      rw [if_neg (by simp [ht]), if_pos hsb, if_pos hv]
    · intro hnm
      have hv : verify_agent_token_hash cfg hashTok
          (((findHost db hid).bind (·.agent_token_hash)).getD "") token = false := by
        rw [hstored]
        simp only [Option.getD_some]
        unfold verify_agent_token_hash
        by_cases hsec : cfg.agentHashSecret = ""
        · rw [if_neg (by simp [hs, ht]), if_pos (by simp [hsec])]
        · rw [if_neg (by simp [hs, ht]), if_neg (by simp [hsec])]
          have hne : hashTok cfg.agentHashSecret token ≠ s := fun he => hnm ⟨hsec, he⟩
          simp only [beq_eq_false_iff_ne, ne_eq]
          exact fun he => hne he.symm
      constructor
      · rintro ⟨hall, hapi, heq⟩
        simp only [verify_agent_auth_for_host]
        rw [if_neg (by simp [ht]), if_pos hsb, if_neg (by simp [hv]),
          if_pos (by simp [hall, hapi, heq])]
      · intro hns
        simp only [verify_agent_auth_for_host]
        rw [if_neg (by simp [ht]), if_pos hsb, if_neg (by simp [hv]),
          if_neg (by intro hsh; simp only [Bool.and_eq_true, bne_iff_ne, ne_eq,
            beq_iff_eq] at hsh; exact hns ⟨hsh.1.1, hsh.1.2, hsh.2⟩)]
  · intro ht hfalse
    constructor
    · rintro ⟨hall, hapi, heq⟩
      simp only [verify_agent_auth_for_host]
      rw [if_neg (by simp [ht]), if_neg (by simp [hfalse]),
        if_pos (by simp [hall, hapi, heq])]
    · intro hns
      simp only [verify_agent_auth_for_host]
      rw [if_neg (by simp [ht]), if_neg (by simp [hfalse]),
        if_neg (by intro hsh; simp only [Bool.and_eq_true, bne_iff_ne, ne_eq,
          beq_iff_eq] at hsh; exact hns ⟨hsh.1.1, hsh.1.2, hsh.2⟩)]

/-- Keyed-hash model for the C6 witness. -/
def hashTokCat : String → String → String := fun s t => s ++ ":" ++ t

/-- Configuration for the C6 witness: per-host hashes only. -/
def cfgAuth : Config :=
  { allowShared := false, autoProvision := false, apiToken := "",
    agentHashSecret := "sec" }

/-- Store for the C6 witness: `node-1` has a stored per-host token hash. -/
def dbAuth : AppDb :=
  { hosts := [{ host0 with agent_token_hash := some "sec:tok9" }], log := [] }

/-- Witness for C6: a per-host token whose keyed hash matches the stored
hash authenticates with `used_shared = false`. -/
theorem c6_verify_agent_auth_cases_witness :
    (("tok9" : String) ≠ ""
      ∧ (findHost dbAuth "node-1").bind (·.agent_token_hash) = some "sec:tok9"
      ∧ ("sec:tok9" : String) ≠ ""
      ∧ cfgAuth.agentHashSecret ≠ "" ∧ hashTokCat cfgAuth.agentHashSecret "tok9" = "sec:tok9")
    ∧ verify_agent_auth_for_host cfgAuth hashTokCat dbAuth "node-1" "tok9"
        = { ok := true, used_shared := false } :=
  ⟨⟨by decide, by decide, by decide, by decide, by decide⟩,
    ((c6_verify_agent_auth_cases cfgAuth hashTokCat dbAuth "node-1" "tok9").2.1 "sec:tok9"
        (by decide) (by decide) (by decide)).1 ⟨by decide, by decide⟩⟩

/-! ### Session expiry -/

theorem findSession_deleteSession (sdb : List Session) (token : String) :
    findSession (deleteSession sdb token) token = none := by
  unfold findSession deleteSession
  rw [List.find?_eq_none]
  intro s hs
  have := (List.mem_filter.mp hs).2
  simp only [Bool.not_eq_eq_eq_not, Bool.not_true] at this
  simp [this]

/-- **C8**: `verify_session` on a token with no stored row fails without
modifying the store; on a token whose stored row is past expiry it fails,
deletes the row — so the token is absent from the store afterward — and
every subsequent `verify_session` call on the same token also fails via the
missing-row case, leaving the store unchanged. -/
theorem c8_verify_session_lazy_expiry (sdb : List Session) (now : Nat) (token : String) :
    (findSession sdb token = none → verifySession sdb now token = (false, sdb))
    ∧ (∀ s, findSession sdb token = some s → s.expires_at < now →
        verifySession sdb now token = (false, deleteSession sdb token)
        ∧ findSession (deleteSession sdb token) token = none
        ∧ ∀ now', verifySession (deleteSession sdb token) now' token
            = (false, deleteSession sdb token)) := by
  constructor
  · intro hnone
    unfold verifySession
    rw [hnone]
  · intro s hfind hexp
    refine ⟨?_, findSession_deleteSession sdb token, ?_⟩
    · unfold verifySession
      rw [hfind]
      simp only [if_pos hexp]
    · intro now'
      unfold verifySession
      rw [findSession_deleteSession sdb token]

/-- Sample session store for the C8 witness: one session expiring at 100. -/
def sdb0 : List Session :=
  [{ token := "T", csrf_token := "C", expires_at := 100, created_at := 0 }]

/-- Witness for C8: verifying `T` at time 200 (past expiry 100) fails and
removes the row; a second call at time 300 fails through the missing-row
case. -/
theorem c8_verify_session_lazy_expiry_witness :
    (findSession sdb0 "T"
        = some { token := "T", csrf_token := "C", expires_at := 100, created_at := 0 }
      ∧ (100 : Nat) < 200)
    ∧ (verifySession sdb0 200 "T" = (false, deleteSession sdb0 "T")
      ∧ findSession (deleteSession sdb0 "T") "T" = none
      ∧ ∀ now', verifySession (deleteSession sdb0 "T") now' "T"
          = (false, deleteSession sdb0 "T")) :=
  ⟨⟨by decide, by decide⟩,
    (c8_verify_session_lazy_expiry sdb0 200 "T").2
      { token := "T", csrf_token := "C", expires_at := 100, created_at := 0 }
      (by decide) (by decide)⟩

/-! ### Broadcast fan-out -/

/-- **C9**: publishing one event to N registered subscribers of which
exactly one has a full mailbox enqueues the event at the tail of each of the
other N-1 mailboxes (preserving per-subscriber publish order), increments
the drop counter by exactly one, and leaves the subscriber set unchanged
(same length, same ids, the full subscriber untouched). -/
theorem c9_broadcast_drops_only_full (subs : List Subscriber) (drops : Nat) (msg : String)
    (hone : (subs.filter fun q => !(q.queue.length < sseQueueMax)).length = 1) :
    (broadcastEvent subs drops msg).2 = drops + 1
    ∧ (broadcastEvent subs drops msg).1.length = subs.length
    ∧ (broadcastEvent subs drops msg).1.map (·.id) = subs.map (·.id)
    ∧ ∀ i, i < subs.length → ∀ q, subs[i]? = some q →
        ((q.queue.length < sseQueueMax →
            (broadcastEvent subs drops msg).1[i]? = some { q with queue := q.queue ++ [msg] })
          ∧ (¬ q.queue.length < sseQueueMax →
            (broadcastEvent subs drops msg).1[i]? = some q)) := by
  have hne : subs.isEmpty = false := by
    cases subs with
    | nil => simp at hone
    | cons a t => rfl
  have hres : broadcastEvent subs drops msg
      = (subs.map fun q =>
          if q.queue.length < sseQueueMax then { q with queue := q.queue ++ [msg] } else q,
         drops + (subs.filter fun q => !(q.queue.length < sseQueueMax)).length) := by
    unfold broadcastEvent
    rw [if_neg (by simp [hne])]
  refine ⟨by rw [hres, hone], by rw [hres]; simp, ?_, ?_⟩
  · rw [hres]
    simp only [List.map_map]
    congr 1
    funext q
    simp only [Function.comp_apply]
    split <;> rfl
  · intro i hi q hq
    constructor
    · intro hroom
      rw [hres]
      show (subs.map fun q =>
        if q.queue.length < sseQueueMax then { q with queue := q.queue ++ [msg] } else q)[i]?
        = _
      rw [List.getElem?_map, hq]
      simp only [Option.map_some']
      rw [if_pos hroom]
    · intro hfull
      rw [hres]
      show (subs.map fun q =>
        if q.queue.length < sseQueueMax then { q with queue := q.queue ++ [msg] } else q)[i]?
        = _
      rw [List.getElem?_map, hq]
      simp only [Option.map_some']
      rw [if_neg hfull]

/-- Subscribers for the C9 witness: one full mailbox (100 waiting messages)
and one empty mailbox. -/
def subs0 : List Subscriber :=
  [{ id := 0, queue := List.replicate 100 "old" }, { id := 1, queue := [] }]

/-- Witness for C9: broadcasting to `subs0` delivers to subscriber 1,
counts exactly one drop for subscriber 0 and removes nobody. -/
theorem c9_broadcast_drops_only_full_witness :
    (subs0.filter fun q => !(q.queue.length < sseQueueMax)).length = 1
    ∧ ((broadcastEvent subs0 7 "m").2 = 7 + 1
      ∧ (broadcastEvent subs0 7 "m").1.length = subs0.length
      ∧ (broadcastEvent subs0 7 "m").1.map (·.id) = subs0.map (·.id)
      ∧ ∀ i, i < subs0.length → ∀ q, subs0[i]? = some q →
          ((q.queue.length < sseQueueMax →
              (broadcastEvent subs0 7 "m").1[i]? = some { q with queue := q.queue ++ ["m"] })
            ∧ (¬ q.queue.length < sseQueueMax →
              (broadcastEvent subs0 7 "m").1[i]? = some q))) :=
  ⟨by decide, c9_broadcast_drops_only_full subs0 7 "m" (by decide)⟩

end NixFleet
